import Mathlib

set_option autoImplicit false
set_option linter.dupNamespace false

namespace Ucon

/-! Shallow embedding of the ucon request dispatch engine: path templates,
route selection, the middleware chain ("Bubble") and the structured request
mapper, translated from the Go sources of the repository. Go strings are
modelled as lists of characters. -/

/-- Go strings are modelled as lists of characters. -/
abbrev Str := List Char

/-- Decidable equality for `Except` results (not provided by core). -/
instance instDecEqExcept {ε α : Type} [DecidableEq ε] [DecidableEq α] :
    DecidableEq (Except ε α) := fun a b =>
  match a, b with
  | .ok a, .ok b =>
    match decEq a b with
    | isTrue h => isTrue (by rw [h])
    | isFalse h => isFalse (fun hh => h (by injection hh))
  | .error a, .error b =>
    match decEq a b with
    | isTrue h => isTrue (by rw [h])
    | isFalse h => isFalse (fun hh => h (by injection hh))
  | .ok _, .error _ => isFalse (fun h => by cases h)
  | .error _, .ok _ => isFalse (fun h => by cases h)

/-- Go `strings.Split(s, sep)` for a single-character separator: the list of
pieces between occurrences of `sep` (always non-empty). -/
def stringsSplit (sep : Char) : Str → List Str
  | [] => [[]]
  | c :: cs =>
    match stringsSplit sep cs with
    | [] => [[]]
    | h :: t => if c = sep then [] :: h :: t else (c :: h) :: t

/-- Hexadecimal digit test, as in Go `net/url`. -/
def ishex (c : Char) : Bool :=
  ('0' ≤ c && c ≤ '9') || ('a' ≤ c && c ≤ 'f') || ('A' ≤ c && c ≤ 'F')

/-- Hexadecimal digit value, as in Go `net/url`. -/
def unhex (c : Char) : Nat :=
  if '0' ≤ c && c ≤ '9' then c.toNat - '0'.toNat
  else if 'a' ≤ c && c ≤ 'f' then c.toNat - 'a'.toNat + 10
  else if 'A' ≤ c && c ≤ 'F' then c.toNat - 'A'.toNat + 10
  else 0

/-- Go `net/url.QueryUnescape`: decodes `%XX` escapes (bytes modelled as
characters) and `+` as a space; fails on a malformed escape. -/
def queryUnescape : Str → Option Str
  | [] => some []
  | '%' :: a :: b :: rest =>
    if ishex a && ishex b then
      (queryUnescape rest).map (fun r => Char.ofNat (16 * unhex a + unhex b) :: r)
    else none
  | '%' :: _ => none
  | '+' :: rest => (queryUnescape rest).map (fun r => ' ' :: r)
  | c :: rest => (queryUnescape rest).map (fun r => c :: r)

/-- The value recorded for a variable segment in `PathTemplate.Match`: the
unescaped value, or the raw segment when unescaping fails (Go:
`v, err := url.QueryUnescape(reqPart); if err != nil { v = reqPart }`). -/
def unescapeValue (s : Str) : Str := (queryUnescape s).getD s

/-- Go map assignment `m[key] = value`: overwrites the existing entry for
`key`, otherwise appends a new one. -/
def mapInsert (m : List (Str × Str)) (key value : Str) : List (Str × Str) :=
  if m.any (fun p => p.1 == key) then
    m.map (fun p => if p.1 == key then (key, value) else p)
  else m ++ [(key, value)]

/-- Segment test for the variable form, Go regexp `^\x7b(.+)\x7d$`
(`.` matches any character except a newline). -/
def isVariableSegment : Str → Bool
  | c :: c2 :: cs =>
    (c == '{') && ((c2 :: cs).getLast? == some '}') &&
      (!(c2 :: cs).dropLast.isEmpty) && (c2 :: cs).dropLast.all (fun ch => ch != '\n')
  | _ => false

/-- Go slice `s[1 : len(s)-1]`: the variable name between the braces. -/
def braceInner (s : Str) : Str := (s.drop 1).dropLast

/-- Go `ucon.PathTemplate` (the `PathTemplate` struct). -/
structure PathTemplate where
  PathTemplate : Str
  httpHandlePath : Str
  isVariables : List Bool
  splittedPathTemplate : List Str
  PathParameters : List Str
deriving Repr, DecidableEq

/-- Go `strings.Index(s, needle)` for a single-character needle: the index of
the first occurrence (`none` models -1). -/
def stringsIndex (needle : Char) : Str → Option Nat
  | [] => none
  | c :: cs => if c = needle then some 0 else (stringsIndex needle cs).map (· + 1)

/-- Go `ucon.ParsePathTemplate`. -/
def ParsePathTemplate (pathTmpl : Str) : PathTemplate :=
  let handlePath :=
    match stringsIndex '{' pathTmpl with
    | none => pathTmpl
    | some i => pathTmpl.take i
  let parts := stringsSplit '/' pathTmpl
  { PathTemplate := pathTmpl
    httpHandlePath := handlePath
    isVariables := parts.map isVariableSegment
    splittedPathTemplate := parts
    PathParameters := (parts.filter isVariableSegment).map braceInner }

/-- The segment-comparison loop of `PathTemplate.Match`, walking the template
segments, their variable flags and the (truncated) request segments in
lockstep while accumulating the bindings map. The final catch-all arm covers
mis-aligned lists, which cannot arise for a parsed template. -/
def matchLoop : List Str → List Bool → List Str → List (Str × Str) → Option (List (Str × Str))
  | [], _, _, params => some params
  | s :: ss, isVar :: vs, reqPart :: rs, params =>
    if isVar then
      if reqPart.isEmpty then none
      else matchLoop ss vs rs (mapInsert params (braceInner s) (unescapeValue reqPart))
    else if s == reqPart then matchLoop ss vs rs params
    else none
  | _ :: _, _, _, _ => none

/-- Go `PathTemplate.Match`. `none` models `(false, nil)`; `some params`
models `(true, params)` (the nil map returned by the fast path and an empty
map are indistinguishable to every caller and both modelled as `[]`). -/
def PathTemplate.Match (pt : Ucon.PathTemplate) (requestPath : Str) : Option (List (Str × Str)) :=
  if pt.PathTemplate == pt.httpHandlePath && pt.httpHandlePath.isPrefixOf requestPath then
    some []
  else
    let requestPathSplitted := stringsSplit '/' requestPath
    let requiredLen := pt.splittedPathTemplate.length
    let requestLen := requestPathSplitted.length
    if requiredLen < requestLen then
      matchLoop pt.splittedPathTemplate pt.isVariables (requestPathSplitted.take requiredLen) []
    else if requiredLen ≠ requestLen then none
    else matchLoop pt.splittedPathTemplate pt.isVariables requestPathSplitted []

/-- Go `methodMatchRate` constant `noMethodMatch`. -/
def noMethodMatch : Nat := 0
/-- Go `methodMatchRate` constant `starMethodMatch`. -/
def starMethodMatch : Nat := 1
/-- Go `methodMatchRate` constant `overloadMethodMatch`. -/
def overloadMethodMatch : Nat := 2
/-- Go `methodMatchRate` constant `exactMethodMatch`. -/
def exactMethodMatch : Nat := 3
/-- Go path-rate constant `noPathMatch`. -/
def noPathMatch : Nat := 0
/-- Go path-rate constant `starPathMatch`. -/
def starPathMatch : Nat := 1
/-- Go path-rate constant `exactPathMatch`. -/
def exactPathMatch : Nat := 2

/-- The parts of Go `http.Request` read by the engine: method, URL path, the
parsed query parameters, the `Content-Type` header value and the (optional)
body. -/
structure Request where
  Method : Str
  URLPath : Str
  query : List (Str × List Str)
  contentType : Str
  body : Option Str
deriving Repr, DecidableEq

/-- Go `ucon.RouteDefinition` (the handler container is modelled separately,
in the Bubble embedding, since route selection never consults it). -/
structure RouteDefinition where
  Method : Str
  PathTemplate : PathTemplate
deriving Repr, DecidableEq

/-- Go closure `methodMatchRate` in `Router.pickupBestRouteDefinition`. -/
def methodMatchRate (r : Request) (rd : RouteDefinition) : Nat :=
  if rd.Method == "*".toList then starMethodMatch
  else if rd.Method == "GET".toList && r.Method == "HEAD".toList then overloadMethodMatch
  else if rd.Method == r.Method then exactMethodMatch
  else noMethodMatch

/-- The per-segment scoring loop of Go `pathMatchRate`; index 0, the implicit
leading empty segment, contributes nothing. -/
def rateTokens (pt : PathTemplate) (reqPathTokens : List Str) : Nat → List Str → Nat
  | _, [] => 0
  | i, token :: rest =>
    let restRate := rateTokens pt reqPathTokens (i + 1) rest
    if i == 0 then restRate
    else if pt.isVariables.getD i false then exactPathMatch + restRate
    else if token.isEmpty then starPathMatch + restRate
    else if token == reqPathTokens.getD i [] then exactPathMatch + restRate
    else restRate

/-- Go closure `pathMatchRate` in `Router.pickupBestRouteDefinition`. -/
def pathMatchRate (r : Request) (rd : RouteDefinition) : Nat :=
  match rd.PathTemplate.Match r.URLPath with
  | none => noPathMatch
  | some _ =>
    let tempPathTokens := rd.PathTemplate.splittedPathTemplate
    let reqPathTokens := stringsSplit '/' r.URLPath
    if reqPathTokens.length < tempPathTokens.length then noPathMatch
    else rateTokens rd.PathTemplate reqPathTokens 0 tempPathTokens

/-- The loop state of Go `Router.pickupBestRouteDefinition`: the best route so
far (by registration index, modelling the `*RouteDefinition` pointer) and the
best method/path rates so far. -/
structure SelState where
  bestRoute : Option Nat
  bestMethodMatchRate : Nat
  bestPathMatchRate : Nat
deriving Repr, DecidableEq

/-- One iteration of the selection loop in Go `Router.pickupBestRouteDefinition`,
processing the entry with registration index `i`. -/
def selStep (r : Request) (i : Nat) (rd : RouteDefinition) (s : SelState) : SelState :=
  let mRate := methodMatchRate r rd
  if mRate == noMethodMatch then s
  else if mRate < s.bestMethodMatchRate then s
  else
    let pRate := pathMatchRate r rd
    if pRate == noPathMatch then s
    else if pRate < s.bestPathMatchRate then s
    else if s.bestMethodMatchRate == mRate && s.bestPathMatchRate == pRate then s
    else ⟨some i, mRate, pRate⟩

/-- The selection loop of Go `Router.pickupBestRouteDefinition` over the
suffix of the handler list starting at registration index `i`. -/
def selLoop (r : Request) : Nat → List RouteDefinition → SelState → SelState
  | _, [], s => s
  | i, rd :: rest, s => selLoop r (i + 1) rest (selStep r i rd s)

/-- Go `Router.pickupBestRouteDefinition`, returning the registration index of
the selected route (modelling pointer identity of the returned definition;
`none` models the nil result). -/
def pickupBestRouteDefinitionIdx (r : Request) (handlers : List RouteDefinition) : Option Nat :=
  (selLoop r 0 handlers ⟨none, noMethodMatch, noPathMatch⟩).bestRoute

/-- Go `Router.pickupBestRouteDefinition`, returning the selected route itself. -/
def pickupBestRouteDefinition (r : Request) (handlers : List RouteDefinition) :
    Option RouteDefinition :=
  (pickupBestRouteDefinitionIdx r handlers).bind (fun i => handlers.get? i)

/-- The struct-field metadata consulted by the mapper (`utils.go`): field
name, raw `json` tag, and whether the field is embedded (anonymous). -/
structure FieldMeta where
  name : Str
  jsonTag : Str
  anonymous : Bool
deriving Repr, DecidableEq

/-- Go `TagJSON.Ignored`: the first comma-piece of the json tag is `-`. -/
def tagIgnored (tag : Str) : Bool := (stringsSplit ',' tag).headD [] == "-".toList

/-- Go `TagJSON.Name`: the first comma-piece of the json tag. -/
def tagName (tag : Str) : Str := (stringsSplit ',' tag).headD []

/-- Go `structFieldToKey`: the json tag name, falling back to the field name. -/
def structFieldToKey (m : FieldMeta) : Str :=
  if tagName m.jsonTag ≠ [] then tagName m.jsonTag else m.name

mutual

/-- A Go value reachable by the mapper: a scalar (stored in its string form,
so scalar parse errors do not arise in the model), a slice of scalars, or a
nested struct given by its field list. -/
inductive FVal where
  | prim (v : Str)
  | arr (vs : List Str)
  | obj (fields : FieldList)
deriving Repr

/-- The field list of a struct value: `FieldMeta`/`FVal` pairs in declaration
order (a bespoke list, mutual with `FVal`, so that all functions below are
structurally recursive and compute inside the kernel). -/
inductive FieldList where
  | nil
  | cons (m : FieldMeta) (v : FVal) (rest : FieldList)
deriving Repr

end

mutual

/-- Decidable equality for `FVal` (not derivable for a mutual inductive). -/
def FVal.deq : (a b : FVal) → Decidable (a = b)
  | .prim a, .prim b =>
    match decEq a b with
    | isTrue h => isTrue (by rw [h])
    | isFalse h => isFalse (fun hh => h (by injection hh))
  | .prim _, .arr _ => isFalse (fun h => by cases h)
  | .prim _, .obj _ => isFalse (fun h => by cases h)
  | .arr _, .prim _ => isFalse (fun h => by cases h)
  | .arr a, .arr b =>
    match decEq a b with
    | isTrue h => isTrue (by rw [h])
    | isFalse h => isFalse (fun hh => h (by injection hh))
  | .arr _, .obj _ => isFalse (fun h => by cases h)
  | .obj _, .prim _ => isFalse (fun h => by cases h)
  | .obj _, .arr _ => isFalse (fun h => by cases h)
  | .obj a, .obj b =>
    match FieldList.deq a b with
    | isTrue h => isTrue (by rw [h])
    | isFalse h => isFalse (fun hh => h (by injection hh))

/-- Decidable equality for `FieldList`, mutually with `FVal.deq`. -/
def FieldList.deq : (a b : FieldList) → Decidable (a = b)
  | .nil, .nil => isTrue rfl
  | .nil, .cons _ _ _ => isFalse (fun h => by cases h)
  | .cons _ _ _, .nil => isFalse (fun h => by cases h)
  | .cons m v r, .cons m2 v2 r2 =>
    match decEq m m2, FVal.deq v v2, FieldList.deq r r2 with
    | isTrue h1, isTrue h2, isTrue h3 => isTrue (by rw [h1, h2, h3])
    | isFalse h1, _, _ => isFalse (fun h => by injection h with a b c; exact h1 a)
    | _, isFalse h2, _ => isFalse (fun h => by injection h with a b c; exact h2 b)
    | _, _, isFalse h3 => isFalse (fun h => by injection h with a b c; exact h3 c)

end

instance : DecidableEq FVal := FVal.deq

instance : DecidableEq FieldList := FieldList.deq

mutual

/-- Go `valueStringMapper` recursing into the value of an embedded
(anonymous) field: search the embedded struct; an anonymous field of
non-struct kind (never declared in this repository) finds nothing. -/
def valueStringMapperVal : FVal → Str → Str → Bool × FVal
  | FVal.obj sub, key, value =>
    let r := valueStringMapper sub key value
    (r.1, FVal.obj r.2)
  | v, _, _ => (false, v)

/-- Go `valueStringMapper` on (the field list of) a struct value: walk the
fields in declaration order, skip json-ignored fields, search embedded
(anonymous) structs recursively, and set the first field whose key matches;
return whether a field was found together with the updated field list. A
matching field of struct kind is left unchanged: Go's `SetValueFromString`
fails on it and the path-parameter caller discards that error. -/
def valueStringMapper : FieldList → Str → Str → Bool × FieldList
  | .nil, _, _ => (false, .nil)
  | .cons m v rest, key, value =>
    if tagIgnored m.jsonTag then
      let r := valueStringMapper rest key value
      (r.1, .cons m v r.2)
    else if m.anonymous then
      let rsub := valueStringMapperVal v key value
      if rsub.1 then (true, .cons m rsub.2 rest)
      else
        let r := valueStringMapper rest key value
        (r.1, .cons m v r.2)
    else if structFieldToKey m ≠ key then
      let r := valueStringMapper rest key value
      (r.1, .cons m v r.2)
    else
      match v with
      | FVal.prim _ => (true, .cons m (FVal.prim value) rest)
      | FVal.arr _ => (true, .cons m (FVal.arr [value]) rest)
      | FVal.obj o => (true, .cons m (FVal.obj o) rest)

end

/-- The errors of the embedded engine. `badRequest` carries the message of a
`newBadRequestf` error, `unsupportedFormat` models the `fmt.Errorf`
"unsupported format" failure of `SetValueFromString` on a struct-kind field. -/
inductive Err where
  | ErrInvalidArgumentLength
  | ErrInvalidArgumentValue
  | ErrPathParameterFieldMissing
  | badRequest (msg : Str)
  | unsupportedFormat
  | otherErr (n : Nat)
deriving Repr, DecidableEq

mutual

/-- Go `valueStringSliceMapper` recursing into the value of an embedded
(anonymous) field. -/
def valueStringSliceMapperVal : FVal → Str → List Str → Except Err (Bool × FVal)
  | FVal.obj sub, key, values =>
    match valueStringSliceMapper sub key values with
    | .error e => .error e
    | .ok r => .ok (r.1, FVal.obj r.2)
  | v, _, _ => .ok (false, v)

/-- Go `valueStringSliceMapper` (query parameters): like `valueStringMapper`
but with a list of values. A slice field receives all the values; a scalar
field with at least one value receives the first, via `valueStringMapper` on
the same struct (which necessarily finds this same field first); a matching
field of struct kind makes `SetValueFromString` fail, and that error is
propagated. -/
def valueStringSliceMapper : FieldList → Str → List Str → Except Err (Bool × FieldList)
  | .nil, _, _ => .ok (false, .nil)
  | .cons m v rest, key, values =>
    if tagIgnored m.jsonTag then
      match valueStringSliceMapper rest key values with
      | .error e => .error e
      | .ok r => .ok (r.1, .cons m v r.2)
    else if m.anonymous then
      match valueStringSliceMapperVal v key values with
      | .error e => .error e
      | .ok rsub =>
        if rsub.1 then .ok (true, .cons m rsub.2 rest)
        else
          match valueStringSliceMapper rest key values with
          | .error e => .error e
          | .ok r => .ok (r.1, .cons m v r.2)
    else if structFieldToKey m ≠ key then
      match valueStringSliceMapper rest key values with
      | .error e => .error e
      | .ok r => .ok (r.1, .cons m v r.2)
    else
      match v with
      | FVal.arr _ => .ok (true, .cons m (FVal.arr values) rest)
      | FVal.prim _ =>
        if values.isEmpty then
          match valueStringSliceMapper rest key values with
          | .error e => .error e
          | .ok r => .ok (r.1, .cons m v r.2)
        else .ok (true, .cons m (FVal.prim (values.headD [])) rest)
      | FVal.obj _ =>
        if values.isEmpty then
          match valueStringSliceMapper rest key values with
          | .error e => .error e
          | .ok r => .ok (r.1, .cons m v r.2)
        else .error Err.unsupportedFormat

end

mutual

/-- The Go type of a modelled value, represented by its zero instance
(`reflect.New` of the type produces exactly this). -/
def FVal.shape : FVal → FVal
  | .prim _ => .prim []
  | .arr _ => .arr []
  | .obj fs => .obj (shapeFields fs)

/-- Pointwise `FVal.shape` over a field list. -/
def shapeFields : FieldList → FieldList
  | .nil => .nil
  | .cons m v rest => .cons m v.shape (shapeFields rest)

end

/-- The declared Go types that can appear in a handler's parameter list, as
far as the engine inspects them: a pointer to a (request-object) struct type,
identified by the struct's zero instance, or another opaque type identified by
a tag. Interface assignability beyond type identity is not exercised by any
claim and not modelled. -/
inductive Ty where
  | ptrStruct (zero : FieldList)
  | otherTy (n : Nat)
deriving Repr, DecidableEq

/-- A resolved `reflect.Value` held in an argument slot. -/
inductive Value where
  | objPtr (fields : FieldList)
  | otherVal (n : Nat)
deriving Repr, DecidableEq

/-- `reflect.Value.Type` of a resolved slot value. -/
def Value.typeOf : Value → Ty
  | .objPtr fs => .ptrStruct (shapeFields fs)
  | .otherVal n => .otherTy n

/-- Go `reflect.Type.AssignableTo` restricted to the modelled types, where
assignability is type identity. -/
def AssignableTo (a b : Ty) : Bool := a == b

/-- The middleware-visible state of Go `ucon.Bubble`: the `Handled` flag, the
declared argument types, the argument slots (`none` models an invalid, not
yet resolved `reflect.Value`), the handler's returns, the request, and the
value stored in the request context under `PathParameterKey` by the router. -/
structure Bubble where
  Handled : Bool
  ArgumentTypes : List Ty
  Arguments : List (Option Value)
  Returns : List Value
  R : Request
  pathParams : Option (List (Str × Str))
deriving Repr, DecidableEq

/-- The terminal request handler: its actual parameter types
(`reflect.Type.In`) and the call itself (`reflect.Value.Call`). -/
structure Handler where
  paramTypes : List Ty
  call : List Value → List Value

/-- The argument-validation loop of Go `Bubble.do`: an invalid slot or an
assignability mismatch yields `ErrInvalidArgumentValue` (the earliest one;
they are indistinguishable). Reached only after the arity guard, so the
mis-aligned arms are unreachable. -/
def checkArguments : List (Option Value) → List Ty → Option Err
  | [], _ => none
  | none :: _, _ => some Err.ErrInvalidArgumentValue
  | some v :: rest, t :: ts =>
    if AssignableTo v.typeOf t then checkArguments rest ts
    else some Err.ErrInvalidArgumentValue
  | some _ :: _, [] => none

/-- Go `Bubble.do`: validate that the resolved-argument count, the declared
argument-type count and the handler's parameter count agree and that every
slot holds a valid, assignable value; then invoke the terminal handler,
record its returns and mark the bubble handled. -/
def bubbleDo (h : Handler) (b : Bubble) : Bubble × Option Err :=
  if b.Arguments.length ≠ b.ArgumentTypes.length ∨ b.Arguments.length ≠ h.paramTypes.length then
    (b, some Err.ErrInvalidArgumentLength)
  else
    match checkArguments b.Arguments h.paramTypes with
    | some e => (b, some e)
    | none =>
      ({ b with Returns := h.call (b.Arguments.filterMap id), Handled := true }, none)

/-- One middleware stage. Go middleware is an arbitrary `func(*Bubble) error`;
the model captures a stage as code run before deciding whether to continue
(`pre`, producing the updated bubble, a result, and whether the stage calls
`b.Next()`) plus code run after `Next` returns (`post`, receiving `Next`'s
result) — which covers every middleware in the repository, each of which
calls `Next` at most once. -/
structure Middleware where
  pre : Bubble → Bubble × Option Err × Bool
  post : Bubble → Option Err → Bubble × Option Err

/-- Go `Bubble.Next` together with the queue cursor: run the chain from the
current cursor position (the list is the not-yet-entered suffix of
`mux.middlewares`); past the last stage, `bubbleDo` invokes the terminal
handler. -/
def Next (h : Handler) : List Middleware → Bubble → Bubble × Option Err
  | [], b => bubbleDo h b
  | mw :: rest, b =>
    let step := mw.pre b
    if step.2.2 then
      let deeper := Next h rest step.1
      mw.post deeper.1 deeper.2
    else (step.1, step.2.1)

/-- The slot-scanning loop of `RequestObjectMapper`: the index and declared
struct shape of the first argument slot that is still unresolved and declared
as a pointer to a struct. -/
def findUnresolvedStructSlot : Nat → List (Option Value) → List Ty →
    Option (Nat × FieldList)
  | _, [], _ => none
  | i, some _ :: args, _ :: tys => findUnresolvedStructSlot (i + 1) args tys
  | i, none :: args, t :: tys =>
    match t with
    | Ty.ptrStruct zero => some (i, zero)
    | Ty.otherTy _ =>
      let _ := args
      findUnresolvedStructSlot (i + 1) args tys
  | _, _, _ => none

/-- The path-parameter pass of `RequestObjectMapper`: every path parameter
must find a field, else `ErrPathParameterFieldMissing`; the conversion error
of `valueStringMapper` is discarded by the Go code. -/
def pathParameterPass : List (Str × Str) → FieldList →
    Except Err (FieldList)
  | [], req => .ok req
  | (key, value) :: rest, req =>
    let r := valueStringMapper req key value
    if r.1 then pathParameterPass rest r.2
    else .error Err.ErrPathParameterFieldMissing

/-- The query-parameter pass of `RequestObjectMapper`: the found flag is
discarded, errors abort the request. -/
def queryPass : List (Str × List Str) → FieldList →
    Except Err (FieldList)
  | [], req => .ok req
  | (key, ss) :: rest, req =>
    match valueStringSliceMapper req key ss with
    | .error e => .error e
    | .ok r => queryPass rest r.2

/-- The body pass of `RequestObjectMapper`: only an `application/json` content
type (first `;`-piece of the header) is decoded, a two-byte body is skipped
("dirty hack"), an empty body is skipped, and a decode failure becomes a
bad-request error. The JSON decoder itself is the opaque external
collaborator `decode`. -/
def bodyPass (decode : Str → FieldList → Except Str (FieldList))
    (contentType : Str) (body : Str) (req : FieldList) :
    Except Err (FieldList) :=
  let ct := (stringsSplit ';' contentType).headD []
  if ct == "application/json".toList then
    if body.length == 2 then .ok req
    else if body.length ≠ 0 then
      match decode body req with
      | .error msg => .error (Err.badRequest msg)
      | .ok merged => .ok merged
    else .ok req
  else .ok req

/-- The body of the Go `RequestObjectMapper` middleware, up to its final
`b.Next()`: pick the first unresolved pointer-to-struct slot; if none exists,
do nothing; otherwise build the request object from the path parameters, the
query parameters and the body, in that order, and store it into that slot.
The final component says whether the stage goes on to call `b.Next()`. -/
def RequestObjectMapperPre
    (decode : Str → FieldList → Except Str (FieldList))
    (b : Bubble) : Bubble × Option Err × Bool :=
  match findUnresolvedStructSlot 0 b.Arguments b.ArgumentTypes with
  | none => (b, none, true)
  | some (argIdx, zero) =>
    let afterPath :=
      match b.pathParams with
      | none => Except.ok zero
      | some params => pathParameterPass params zero
    match afterPath with
    | .error e => (b, some e, false)
    | .ok req1 =>
      match queryPass b.R.query req1 with
      | .error e => (b, some e, false)
      | .ok req2 =>
        match bodyPass decode b.R.contentType (b.R.body.getD []) req2 with
        | .error e => (b, some e, false)
        | .ok req3 =>
          ({ b with Arguments := b.Arguments.set argIdx (some (Value.objPtr req3)) }, none, true)

/-- Go `RequestObjectMapper` as a chain stage: its trailing `return b.Next()`
makes the post-pass the identity. -/
def RequestObjectMapper
    (decode : Str → FieldList → Except Str (FieldList)) :
    Middleware :=
  { pre := RequestObjectMapperPre decode
    post := fun b e => (b, e) }

/-- Go `strings.ToUpper` (ASCII suffices for method names). -/
def stringsToUpper (s : Str) : Str := s.map Char.toUpper

/-- The route table owned by Go `ucon.ServeMux`/`Router`. -/
structure ServeMux where
  handlers : List RouteDefinition
deriving Repr, DecidableEq

/-- Go `ServeMux.Handle`: register one `RouteDefinition` per comma-separated,
upper-cased method token against the shared router, in order. Nothing about
the handler's request-object type is inspected here (`CheckFunction` only
verifies that the handler is a function, which holds by construction in the
model). -/
def ServeMux.Handle (m : ServeMux) (method path : Str) : ServeMux :=
  let pathTmpl := ParsePathTemplate path
  let methods := stringsSplit ',' (stringsToUpper method)
  { handlers := m.handlers ++ methods.map (fun mth => ⟨mth, pathTmpl⟩) }

/-- A registered plugin, reduced to what `pluginContainer.check` and
`ServeMux.Prepare` inspect: whether it implements the handlers-scanner
capability and whether its scanner hook fails. -/
structure PluginContainer where
  hasHandlersScanner : Bool
  scannerFails : Bool
deriving Repr, DecidableEq

/-- Go `ServeMux.Prepare` together with the capability check performed at
plugin registration: every plugin must expose the scanner capability and its
hook must succeed, otherwise startup panics (modelled as an error). -/
def Prepare : List PluginContainer → Except Str Unit
  | [] => .ok ()
  | p :: rest =>
    if !p.hasHandlersScanner then .error "unused plugin".toList
    else if p.scannerFails then .error "scanner failed".toList
    else Prepare rest

/-! ## Claims about the router -/

/-- Claim C3: the claim (like the router's own documentation, rule 2b of the
`Router` doc comment) says that with `/a/` and `/a/{bar}/` both registered
for GET, the request GET `/a/x/y` is routed to `/a/{bar}/`. On the code,
`Match` of `/a/{bar}/` fails on `/a/x/y` — its trailing empty literal
segment must equal the request segment `y` — so that entry is disqualified
and the `/a/` entry (index 0) is selected instead. -/
theorem claimC3_code_bug_eval :
    pickupBestRouteDefinitionIdx
      ⟨"GET".toList, "/a/x/y".toList, [], [], none⟩
      [⟨"GET".toList, ParsePathTemplate "/a/".toList⟩,
       ⟨"GET".toList, ParsePathTemplate "/a/{bar}/".toList⟩] = some 0 ∧
    (ParsePathTemplate "/a/{bar}/".toList).Match "/a/x/y".toList = none ∧
    (ParsePathTemplate "/a/".toList).Match "/a/x/y".toList = some [] := by
  decide

/-- Claim C5: the claim says an empty literal template segment acts as a
wildcard inside `PathTemplate.Match`. In the code this holds only for
variable-free templates, via the prefix fast path; in the segment loop an
empty literal must match exactly. For the parsed template `/a/{b}/` —
whose segment at position 3 is the empty literal — the request `/a/x/y`
(whose segment at position 3 is the non-empty `y`) does not match. -/
theorem claimC5_code_bug_eval :
    (ParsePathTemplate "/a/{b}/".toList).splittedPathTemplate.getD 3 ['x'] = [] ∧
    (ParsePathTemplate "/a/{b}/".toList).isVariables.getD 3 true = false ∧
    (stringsSplit '/' "/a/x/y".toList).getD 3 [] = "y".toList ∧
    (ParsePathTemplate "/a/{b}/".toList).Match "/a/x/y".toList = none := by
  decide

/-- Claim C2 fails as stated: with the template `/a` registered under the
wildcard method and under GET (in either order), the request GET `/ab` has a
path that `Match` accepts (via the prefix fast path) yet scores path tier
zero for both entries, so the router returns no route at all instead of the
exact-method entry. -/
theorem claimC2_counterexample :
    (ParsePathTemplate "/a".toList).Match "/ab".toList = some [] ∧
    pickupBestRouteDefinitionIdx ⟨"GET".toList, "/ab".toList, [], [], none⟩
      [⟨"*".toList, ParsePathTemplate "/a".toList⟩,
       ⟨"GET".toList, ParsePathTemplate "/a".toList⟩] = none ∧
    pickupBestRouteDefinitionIdx ⟨"GET".toList, "/ab".toList, [], [], none⟩
      [⟨"GET".toList, ParsePathTemplate "/a".toList⟩,
       ⟨"*".toList, ParsePathTemplate "/a".toList⟩] = none := by
  decide

/-- Claim C2, amended: for a pair of entries with the same path template, one
with the wildcard method `*` and one with a concrete method `M`, every
request with method `M` whose path tier for that template is non-zero
resolves to the exact-method entry, regardless of registration order. -/
theorem claimC2_amended (pt : PathTemplate) (M : Str) (r : Request)
    (hM : M ≠ "*".toList) (hr : r.Method = M)
    (hp : pathMatchRate r ⟨M, pt⟩ ≠ noPathMatch) :
    pickupBestRouteDefinitionIdx r [⟨"*".toList, pt⟩, ⟨M, pt⟩] = some 1 ∧
    pickupBestRouteDefinitionIdx r [⟨M, pt⟩, ⟨"*".toList, pt⟩] = some 0 := by
  subst hr
  have hstar : methodMatchRate r ⟨"*".toList, pt⟩ = starMethodMatch := by
    simp [methodMatchRate]
  have hexact : methodMatchRate r ⟨r.Method, pt⟩ = exactMethodMatch := by
    simp only [methodMatchRate]
    rw [if_neg, if_neg, if_pos]
    · exact beq_self_eq_true r.Method
    · simp only [Bool.and_eq_true, beq_iff_eq]
      rintro ⟨h1, h2⟩
      rw [h1] at h2
      simp at h2
    · exact fun hh => hM (by simpa using hh)
  have hpw : pathMatchRate r ⟨"*".toList, pt⟩ = pathMatchRate r ⟨r.Method, pt⟩ := rfl
  have hp' : ¬ (pathMatchRate r ⟨r.Method, pt⟩ = 0) := by
    simpa [noPathMatch] using hp
  constructor
  · simp only [pickupBestRouteDefinitionIdx, selLoop, selStep, hstar, hexact, hpw,
      noMethodMatch, starMethodMatch, exactMethodMatch, noPathMatch]
    simp [hp']
  · simp only [pickupBestRouteDefinitionIdx, selLoop, selStep, hstar, hexact, hpw,
      noMethodMatch, starMethodMatch, exactMethodMatch, noPathMatch]
    simp [hp']

/-- Witness for the amended claim C2 at the template `/a`, method GET and the
request GET `/a`. -/
theorem claimC2_amended_witness :
    ("GET".toList ≠ "*".toList) ∧
    pathMatchRate ⟨"GET".toList, "/a".toList, [], [], none⟩
      ⟨"GET".toList, ParsePathTemplate "/a".toList⟩ ≠ noPathMatch ∧
    (pickupBestRouteDefinitionIdx ⟨"GET".toList, "/a".toList, [], [], none⟩
      [⟨"*".toList, ParsePathTemplate "/a".toList⟩,
       ⟨"GET".toList, ParsePathTemplate "/a".toList⟩] = some 1 ∧
     pickupBestRouteDefinitionIdx ⟨"GET".toList, "/a".toList, [], [], none⟩
      [⟨"GET".toList, ParsePathTemplate "/a".toList⟩,
       ⟨"*".toList, ParsePathTemplate "/a".toList⟩] = some 0) :=
  ⟨by decide, by decide,
   claimC2_amended (ParsePathTemplate "/a".toList) "GET".toList
     ⟨"GET".toList, "/a".toList, [], [], none⟩ (by decide) rfl (by decide)⟩

/-! ## Claims about the middleware chain -/

/-- Claim C6: a middleware stage that returns without calling `Next`
short-circuits the chain. Running the chain from that stage yields exactly
the stage's own result — independent of the remaining stages and of the
terminal handler, so neither a later stage nor the handler runs — and the
`Handled` flag stays false when the stage leaves it false. -/
theorem claimC6 (mw : Middleware) (rest rest2 : List Middleware)
    (h h2 : Handler) (b : Bubble)
    (hstop : (mw.pre b).2.2 = false) :
    Next h (mw :: rest) b = ((mw.pre b).1, (mw.pre b).2.1) ∧
    Next h (mw :: rest) b = Next h2 (mw :: rest2) b ∧
    ((mw.pre b).1.Handled = false → (Next h (mw :: rest) b).1.Handled = false) := by
  have hrun : ∀ (h' : Handler) (rest' : List Middleware),
      Next h' (mw :: rest') b = ((mw.pre b).1, (mw.pre b).2.1) := by
    intro h' rest'
    simp only [Next, hstop]
    simp
  refine ⟨hrun h rest, ?_, ?_⟩
  · rw [hrun h rest, hrun h2 rest2]
  · intro hh
    rw [hrun h rest]
    exact hh

/-- Witness for claim C6: a concrete stage that returns an error without
calling `Next`, in front of a stage that would mark the bubble handled, with
a handler that would also record a return. Neither runs. -/
theorem claimC6_witness :
    ((Middleware.mk (fun b => (b, some (Err.otherErr 7), false)) (fun b e => (b, e))).pre
        ⟨false, [], [], [], ⟨"GET".toList, "/".toList, [], [], none⟩, none⟩).2.2 = false ∧
    Next ⟨[], fun _ => [Value.otherVal 9]⟩
      [Middleware.mk (fun b => (b, some (Err.otherErr 7), false)) (fun b e => (b, e)),
       Middleware.mk (fun b => ({ b with Handled := true }, none, true)) (fun b e => (b, e))]
      ⟨false, [], [], [], ⟨"GET".toList, "/".toList, [], [], none⟩, none⟩ =
      (⟨false, [], [], [], ⟨"GET".toList, "/".toList, [], [], none⟩, none⟩,
       some (Err.otherErr 7)) :=
  ⟨rfl,
   (claimC6 (Middleware.mk (fun b => (b, some (Err.otherErr 7), false)) (fun b e => (b, e)))
     [Middleware.mk (fun b => ({ b with Handled := true }, none, true)) (fun b e => (b, e))]
     [] ⟨[], fun _ => [Value.otherVal 9]⟩ ⟨[], fun _ => [Value.otherVal 9]⟩
     ⟨false, [], [], [], ⟨"GET".toList, "/".toList, [], [], none⟩, none⟩ rfl).1⟩

/-! ## Claims about the request mapper's body handling -/

/-- Claim C8: with JSON content type and a body of zero or exactly two bytes,
the body pass decodes nothing and raises no error — the request object is
unchanged by the body — and consequently the whole `RequestObjectMapper`
stage behaves identically for every decoder. -/
theorem claimC8 (decode decode2 : Str → FieldList → Except Str FieldList) (b : Bubble)
    (hct : (stringsSplit ';' b.R.contentType).headD [] = "application/json".toList)
    (hlen : (b.R.body.getD []).length = 0 ∨ (b.R.body.getD []).length = 2) :
    (∀ req : FieldList,
      bodyPass decode b.R.contentType (b.R.body.getD []) req = Except.ok req) ∧
    RequestObjectMapperPre decode b = RequestObjectMapperPre decode2 b := by
  have hbody : ∀ (d : Str → FieldList → Except Str FieldList) (req : FieldList),
      bodyPass d b.R.contentType (b.R.body.getD []) req = Except.ok req := by
    intro d req
    simp only [bodyPass, hct]
    rcases hlen with h0 | h2
    · simp [h0]
    · simp [h2]
  refine ⟨hbody decode, ?_⟩
  have hfun : bodyPass decode b.R.contentType (b.R.body.getD []) =
      bodyPass decode2 b.R.contentType (b.R.body.getD []) := by
    funext req
    rw [hbody decode, hbody decode2]
  simp only [RequestObjectMapperPre, hfun]

/-- Witness for claim C8: a request carrying the two-byte body of an empty
JSON object literal, against a decoder that always fails: the body pass
still succeeds without touching the object, and the mapper behaves as with a
trivial decoder. -/
theorem claimC8_witness :
    ((stringsSplit ';' "application/json; charset=UTF-8".toList).headD [] =
      "application/json".toList) ∧
    ("{}".toList.length = 0 ∨ "{}".toList.length = 2) ∧
    ((∀ req : FieldList,
        bodyPass (fun _ _ => Except.error "boom".toList)
          "application/json; charset=UTF-8".toList "{}".toList req = Except.ok req) ∧
      RequestObjectMapperPre (fun _ _ => Except.error "boom".toList)
        ⟨false, [Ty.ptrStruct (FieldList.cons ⟨"Name".toList, "name".toList, false⟩
            (FVal.prim []) FieldList.nil)], [none], [],
          ⟨"POST".toList, "/x".toList, [],
            "application/json; charset=UTF-8".toList, some "{}".toList⟩, none⟩ =
      RequestObjectMapperPre (fun _ r => Except.ok r)
        ⟨false, [Ty.ptrStruct (FieldList.cons ⟨"Name".toList, "name".toList, false⟩
            (FVal.prim []) FieldList.nil)], [none], [],
          ⟨"POST".toList, "/x".toList, [],
            "application/json; charset=UTF-8".toList, some "{}".toList⟩, none⟩) :=
  ⟨by decide, Or.inr (by decide),
   claimC8 (fun _ _ => Except.error "boom".toList) (fun _ r => Except.ok r)
     ⟨false, [Ty.ptrStruct (FieldList.cons ⟨"Name".toList, "name".toList, false⟩
         (FVal.prim []) FieldList.nil)], [none], [],
       ⟨"POST".toList, "/x".toList, [],
         "application/json; charset=UTF-8".toList, some "{}".toList⟩, none⟩
     (by decide) (Or.inr (by decide))⟩

/-! ## Claim about the terminal handler invocation -/

/-- Specification-side predicate: the resolved-argument count, the declared
argument-type count and the handler's parameter count all agree. -/
def arityOk (h : Handler) (b : Bubble) : Prop :=
  b.Arguments.length = b.ArgumentTypes.length ∧ b.Arguments.length = h.paramTypes.length

/-- Specification-side predicate: every argument slot holds a resolved value
whose type is assignable to the corresponding handler parameter type. -/
def argumentsOk (h : Handler) (b : Bubble) : Prop :=
  ∀ i, i < b.Arguments.length →
    ∃ v, b.Arguments.getD i none = some v ∧
      AssignableTo v.typeOf (h.paramTypes.getD i (Ty.otherTy 0)) = true

/-- The validation loop returns either no error or `ErrInvalidArgumentValue`. -/
theorem checkArguments_some (args : List (Option Value)) :
    ∀ (tys : List Ty) (e : Err), checkArguments args tys = some e →
      e = Err.ErrInvalidArgumentValue := by
  induction args with
  | nil => intro tys e h; simp [checkArguments] at h
  | cons a rest ih =>
    intro tys e h
    cases a with
    | none =>
      simp [checkArguments] at h
      exact h.symm
    | some v =>
      cases tys with
      | nil => simp [checkArguments] at h
      | cons t ts =>
        simp only [checkArguments] at h
        by_cases hA : AssignableTo v.typeOf t = true
        · rw [if_pos hA] at h
          exact ih ts e h
        · rw [if_neg hA] at h
          exact (Option.some_inj.mp h).symm

/-- On aligned lists, the validation loop succeeds exactly when every slot
holds a value assignable to the corresponding parameter type. -/
theorem checkArguments_eq_none_iff (args : List (Option Value)) :
    ∀ tys : List Ty, args.length = tys.length →
    (checkArguments args tys = none ↔
      ∀ i, i < args.length →
        ∃ v, args.getD i none = some v ∧
          AssignableTo v.typeOf (tys.getD i (Ty.otherTy 0)) = true) := by
  induction args with
  | nil => intro tys _; simp [checkArguments]
  | cons a rest ih =>
    intro tys hlen
    cases tys with
    | nil => simp at hlen
    | cons t ts =>
      cases a with
      | none =>
        simp only [checkArguments]
        constructor
        · intro hh; cases hh
        · intro hh
          obtain ⟨v, hv, -⟩ := hh 0 (by simp)
          simp at hv
      | some v =>
        simp only [checkArguments]
        by_cases hA : AssignableTo v.typeOf t = true
        · rw [if_pos hA, ih ts (by simpa using hlen)]
          constructor
          · intro hh i hi
            cases i with
            | zero => exact ⟨v, rfl, hA⟩
            | succ n =>
              simpa using hh n (by simpa using hi)
          · intro hh i hi
            simpa using hh (i + 1) (by simpa using hi)
        · rw [if_neg hA]
          constructor
          · intro hh; cases hh
          · intro hh
            obtain ⟨w, hw, hA2⟩ := hh 0 (by simp)
            simp only [List.getD_cons_zero, Option.some_inj] at hw
            subst hw
            simp only [List.getD_cons_zero] at hA2
            exact absurd hA2 hA

/-- Claim C7: once the cursor passes the last middleware, the terminal
handler is invoked iff the resolved-argument count, the declared-type count
and the handler's parameter count agree and every slot holds a valid value
assignable to its parameter type; an arity violation yields
`ErrInvalidArgumentLength`, a slot violation `ErrInvalidArgumentValue`, in
both cases with the bubble unchanged — the handler is not called and
`Handled` is not set. -/
theorem claimC7 (h : Handler) (b : Bubble) (hstart : b.Handled = false) :
    ((bubbleDo h b).1.Handled = true ↔ arityOk h b ∧ argumentsOk h b) ∧
    (arityOk h b ∧ argumentsOk h b →
      bubbleDo h b =
        ({ b with Returns := h.call (b.Arguments.filterMap id), Handled := true }, none)) ∧
    (¬ arityOk h b → bubbleDo h b = (b, some Err.ErrInvalidArgumentLength)) ∧
    (arityOk h b → ¬ argumentsOk h b →
      bubbleDo h b = (b, some Err.ErrInvalidArgumentValue)) := by
  by_cases hl : arityOk h b
  · obtain ⟨hl1, hl2⟩ := hl
    have hiff := checkArguments_eq_none_iff b.Arguments h.paramTypes hl2
    have hdo : bubbleDo h b =
        match checkArguments b.Arguments h.paramTypes with
        | some e => (b, some e)
        | none =>
          ({ b with Returns := h.call (b.Arguments.filterMap id), Handled := true }, none) := by
      simp only [bubbleDo]
      rw [if_neg]
      push_neg
      exact ⟨hl1, hl2⟩
    cases hc : checkArguments b.Arguments h.paramTypes with
    | none =>
      have hok : argumentsOk h b := (hiff.mp hc)
      rw [hc] at hdo
      refine ⟨?_, fun _ => hdo, fun hn => absurd ⟨hl1, hl2⟩ hn, fun _ hn => absurd hok hn⟩
      rw [hdo]
      constructor
      · intro _; exact ⟨⟨hl1, hl2⟩, hok⟩
      · intro _; rfl
    | some e =>
      have he : e = Err.ErrInvalidArgumentValue := checkArguments_some b.Arguments h.paramTypes e hc
      subst he
      have hnok : ¬ argumentsOk h b := by
        intro hok
        rw [hiff.mpr hok] at hc
        cases hc
      rw [hc] at hdo
      refine ⟨?_, fun hh => absurd hh.2 hnok, fun hn => absurd ⟨hl1, hl2⟩ hn, fun _ _ => hdo⟩
      rw [hdo]
      simp only [hstart]
      constructor
      · intro hh; cases hh
      · rintro ⟨-, hok⟩; exact absurd hok hnok
  · have hdo : bubbleDo h b = (b, some Err.ErrInvalidArgumentLength) := by
      simp only [bubbleDo]
      rw [if_pos]
      rcases not_and_or.mp hl with hx | hx
      · exact Or.inl hx
      · exact Or.inr hx
    refine ⟨?_, fun hh => absurd hh.1 hl, fun _ => hdo, fun hh => absurd hh hl⟩
    rw [hdo]
    simp only [hstart]
    constructor
    · intro hh; cases hh
    · rintro ⟨ha, -⟩; exact absurd ha hl

/-- Witness for claim C7 at a handler with one parameter and a bubble whose
single slot holds an assignable value: the handler runs. -/
theorem claimC7_witness :
    (⟨false, [Ty.otherTy 3], [some (Value.otherVal 3)], [],
        ⟨"GET".toList, "/".toList, [], [], none⟩, none⟩ : Bubble).Handled = false ∧
    bubbleDo ⟨[Ty.otherTy 3], fun _ => [Value.otherVal 9]⟩
      ⟨false, [Ty.otherTy 3], [some (Value.otherVal 3)], [],
        ⟨"GET".toList, "/".toList, [], [], none⟩, none⟩ =
      (⟨true, [Ty.otherTy 3], [some (Value.otherVal 3)], [Value.otherVal 9],
        ⟨"GET".toList, "/".toList, [], [], none⟩, none⟩, none) :=
  ⟨rfl,
   (claimC7 ⟨[Ty.otherTy 3], fun _ => [Value.otherVal 9]⟩
     ⟨false, [Ty.otherTy 3], [some (Value.otherVal 3)], [],
       ⟨"GET".toList, "/".toList, [], [], none⟩, none⟩ rfl).2.1
     ⟨⟨rfl, rfl⟩, fun i hi =>
       match i, hi with
       | 0, _ => ⟨Value.otherVal 3, rfl, rfl⟩
       | n + 1, hh => absurd hh (by simp)⟩⟩

/-! ## Claim about the mapper's frame effect on argument slots -/

/-- The kind test of `RequestObjectMapper` on a declared type: a pointer to a
struct (`Kind() == Ptr && Elem().Kind() == Struct`). -/
def isPtrStructTy : Ty → Bool
  | .ptrStruct _ => true
  | .otherTy _ => false

/-- Specification-side predicate: slot `k` is unresolved and declared as a
pointer to a struct. -/
def eligibleAt (args : List (Option Value)) (tys : List Ty) (k : Nat) : Prop :=
  k < args.length ∧ args.getD k none = none ∧
    isPtrStructTy (tys.getD k (Ty.otherTy 0)) = true

/-- `List.getD` after `List.set` at a different index is unchanged. -/
theorem list_getD_set_ne {α : Type} : ∀ (l : List α) (i j : Nat) (x d : α), i ≠ j →
    (l.set i x).getD j d = l.getD j d
  | [], _, _, _, _, _ => rfl
  | _ :: _, 0, 0, _, _, h => absurd rfl h
  | _ :: _, 0, _ + 1, _, _, _ => by simp [List.set]
  | _ :: _, _ + 1, 0, _, _, _ => by simp [List.set]
  | a :: l, i + 1, j + 1, x, d, h => by
    simp only [List.set, List.getD_cons_succ]
    exact list_getD_set_ne l i j x d (fun hh => h (by rw [hh]))

/-- A failed slot scan means no slot is eligible. -/
theorem findUnresolvedStructSlot_none : ∀ (args : List (Option Value)) (tys : List Ty)
    (i0 : Nat), findUnresolvedStructSlot i0 args tys = none →
    ∀ k, ¬ eligibleAt args tys k
  | [], _, _, _, k => by simp [eligibleAt]
  | some v :: args, [], i0, h, k => by
    cases k with
    | zero => simp [eligibleAt]
    | succ n => simp [eligibleAt, isPtrStructTy]
  | some v :: args, t :: tys, i0, h, k => by
    cases k with
    | zero => simp [eligibleAt]
    | succ n =>
      have := findUnresolvedStructSlot_none args tys (i0 + 1)
        (by simpa [findUnresolvedStructSlot] using h) n
      simpa [eligibleAt, Nat.succ_lt_succ_iff] using this
  | none :: args, [], i0, h, k => by
    cases k with
    | zero => simp [eligibleAt, isPtrStructTy]
    | succ n => simp [eligibleAt, isPtrStructTy]
  | none :: args, t :: tys, i0, h, k => by
    cases t with
    | ptrStruct zero => simp [findUnresolvedStructSlot] at h
    | otherTy n0 =>
      cases k with
      | zero => simp [eligibleAt, isPtrStructTy]
      | succ n =>
        have := findUnresolvedStructSlot_none args tys (i0 + 1)
          (by simpa [findUnresolvedStructSlot] using h) n
        simpa [eligibleAt, Nat.succ_lt_succ_iff] using this

/-- A successful slot scan returns the first eligible slot, together with the
declared struct shape at that slot. -/
theorem findUnresolvedStructSlot_some : ∀ (args : List (Option Value)) (tys : List Ty)
    (i0 i : Nat) (z : FieldList), findUnresolvedStructSlot i0 args tys = some (i, z) →
    i0 ≤ i ∧ eligibleAt args tys (i - i0) ∧ (∀ k, k < i - i0 → ¬ eligibleAt args tys k) ∧
      tys.getD (i - i0) (Ty.otherTy 0) = Ty.ptrStruct z
  | [], tys, i0, i, z, h => by simp [findUnresolvedStructSlot] at h
  | some v :: args, [], i0, i, z, h => by simp [findUnresolvedStructSlot] at h
  | some v :: args, t :: tys, i0, i, z, h => by
    obtain ⟨h1, h2, h3, h4⟩ := findUnresolvedStructSlot_some args tys (i0 + 1) i z
      (by simpa [findUnresolvedStructSlot] using h)
    have hsub : i - i0 = (i - (i0 + 1)) + 1 := by omega
    refine ⟨by omega, ?_, ?_, ?_⟩
    · rw [hsub]
      simpa [eligibleAt, Nat.succ_lt_succ_iff] using h2
    · intro k hk
      cases k with
      | zero => simp [eligibleAt]
      | succ n =>
        have hn : n < i - (i0 + 1) := by omega
        have := h3 n hn
        simpa [eligibleAt, Nat.succ_lt_succ_iff] using this
    · rw [hsub]
      simpa using h4
  | none :: args, [], i0, i, z, h => by simp [findUnresolvedStructSlot] at h
  | none :: args, t :: tys, i0, i, z, h => by
    cases t with
    | ptrStruct zero =>
      simp only [findUnresolvedStructSlot, Option.some_inj, Prod.mk.injEq] at h
      obtain ⟨hi, hz⟩ := h
      subst hi; subst hz
      refine ⟨Nat.le_refl _, ?_, ?_, ?_⟩
      · simp [eligibleAt, isPtrStructTy]
      · intro k hk; omega
      · simp
    | otherTy n0 =>
      obtain ⟨h1, h2, h3, h4⟩ := findUnresolvedStructSlot_some args tys (i0 + 1) i z
        (by simpa [findUnresolvedStructSlot] using h)
      have hsub : i - i0 = (i - (i0 + 1)) + 1 := by omega
      refine ⟨by omega, ?_, ?_, ?_⟩
      · rw [hsub]
        simpa [eligibleAt, Nat.succ_lt_succ_iff] using h2
      · intro k hk
        cases k with
        | zero => simp [eligibleAt, isPtrStructTy]
        | succ n =>
          have hn : n < i - (i0 + 1) := by omega
          have := h3 n hn
          simpa [eligibleAt, Nat.succ_lt_succ_iff] using this
      · rw [hsub]
        simpa using h4

/-- Claim C10: the `RequestObjectMapper` stage touches nothing in the bubble
but the argument slots; every slot it changes is the first slot that is
unresolved and declared as a pointer to a struct (so it writes at most one
slot, and resolved slots and differently-shaped slots are never written); and
when no such slot exists it changes nothing and continues the chain. -/
theorem claimC10 (decode : Str → FieldList → Except Str FieldList) (b : Bubble) :
    ((RequestObjectMapperPre decode b).1 =
      { b with Arguments := (RequestObjectMapperPre decode b).1.Arguments }) ∧
    (∀ i, (RequestObjectMapperPre decode b).1.Arguments.getD i none ≠ b.Arguments.getD i none →
      eligibleAt b.Arguments b.ArgumentTypes i ∧
        ∀ k, k < i → ¬ eligibleAt b.Arguments b.ArgumentTypes k) ∧
    ((∀ k, ¬ eligibleAt b.Arguments b.ArgumentTypes k) →
      RequestObjectMapperPre decode b = (b, none, true)) := by
  cases hf : findUnresolvedStructSlot 0 b.Arguments b.ArgumentTypes with
  | none =>
    have hre : RequestObjectMapperPre decode b = (b, none, true) := by
      simp only [RequestObjectMapperPre, hf]
    rw [hre]
    exact ⟨rfl, fun i hi => absurd rfl hi, fun _ => rfl⟩
  | some iz =>
    obtain ⟨argIdx, zero⟩ := iz
    obtain ⟨-, helig, hmin, -⟩ :=
      findUnresolvedStructSlot_some b.Arguments b.ArgumentTypes 0 argIdx zero hf
    rw [Nat.sub_zero] at helig hmin
    have hnotall : ¬ (∀ k, ¬ eligibleAt b.Arguments b.ArgumentTypes k) :=
      fun hall => absurd helig (hall argIdx)
    cases hap : (match b.pathParams with
        | none => Except.ok zero
        | some params => pathParameterPass params zero) with
    | error e =>
      have hre : RequestObjectMapperPre decode b = (b, some e, false) := by
        simp only [RequestObjectMapperPre, hf, hap]
      rw [hre]
      exact ⟨rfl, fun i hi => absurd rfl hi, fun hall => absurd hall hnotall⟩
    | ok req1 =>
      cases hq : queryPass b.R.query req1 with
      | error e =>
        have hre : RequestObjectMapperPre decode b = (b, some e, false) := by
          simp only [RequestObjectMapperPre, hf, hap, hq]
        rw [hre]
        exact ⟨rfl, fun i hi => absurd rfl hi, fun hall => absurd hall hnotall⟩
      | ok req2 =>
        cases hb : bodyPass decode b.R.contentType (b.R.body.getD []) req2 with
        | error e =>
          have hre : RequestObjectMapperPre decode b = (b, some e, false) := by
            simp only [RequestObjectMapperPre, hf, hap, hq, hb]
          rw [hre]
          exact ⟨rfl, fun i hi => absurd rfl hi, fun hall => absurd hall hnotall⟩
        | ok req3 =>
          have hre : RequestObjectMapperPre decode b =
              ({ b with Arguments :=
                b.Arguments.set argIdx (some (Value.objPtr req3)) }, none, true) := by
            simp only [RequestObjectMapperPre, hf, hap, hq, hb]
          rw [hre]
          refine ⟨rfl, ?_, fun hall => absurd hall hnotall⟩
          intro i hi
          by_cases hii : argIdx = i
          · subst hii
            exact ⟨helig, hmin⟩
          · exact absurd (list_getD_set_ne b.Arguments argIdx i _ none hii) hi

/-- Witness for claim C10: a bubble whose slot 0 is already resolved and
whose slot 1 is an unresolved pointer-to-struct slot; the mapper changes
slot 1, and that slot is eligible while slot 0 is not. -/
theorem claimC10_witness :
    ((RequestObjectMapperPre (fun _ r => Except.ok r)
        ⟨false, [Ty.otherTy 0, Ty.ptrStruct FieldList.nil], [some (Value.otherVal 0), none],
          [], ⟨"GET".toList, "/".toList, [], [], none⟩, none⟩).1.Arguments.getD 1 none ≠
      ([some (Value.otherVal 0), none] : List (Option Value)).getD 1 none) ∧
    (eligibleAt [some (Value.otherVal 0), none] [Ty.otherTy 0, Ty.ptrStruct FieldList.nil] 1 ∧
      ∀ k, k < 1 →
        ¬ eligibleAt [some (Value.otherVal 0), none] [Ty.otherTy 0, Ty.ptrStruct FieldList.nil] k) :=
  ⟨by decide,
   (claimC10 (fun _ r => Except.ok r)
     ⟨false, [Ty.otherTy 0, Ty.ptrStruct FieldList.nil], [some (Value.otherVal 0), none],
       [], ⟨"GET".toList, "/".toList, [], [], none⟩, none⟩).2.1 1 (by decide)⟩

/-! ## Claim about a path variable with no matching field -/

mutual

/-- Whether `valueStringMapper` can find `key` inside an embedded field
value: only a struct value can be searched. -/
def FVal.hasKey : FVal → Str → Bool
  | FVal.obj fs, key => FieldList.hasKey fs key
  | _, _ => false

/-- Whether `valueStringMapper` finds a field for `key` in a field list; the
search consults only the field metadata, never the values being written. -/
def FieldList.hasKey : FieldList → Str → Bool
  | .nil, _ => false
  | .cons m v rest, key =>
    if tagIgnored m.jsonTag then rest.hasKey key
    else if m.anonymous then v.hasKey key || rest.hasKey key
    else if structFieldToKey m ≠ key then rest.hasKey key
    else true

end

mutual

/-- The found flag of `valueStringMapperVal` is exactly `FVal.hasKey`. -/
theorem valueStringMapperVal_found (v : FVal) (key value : Str) :
    (valueStringMapperVal v key value).1 = v.hasKey key := by
  cases v with
  | prim s => rfl
  | arr s => rfl
  | obj fs =>
    simp only [valueStringMapperVal, FVal.hasKey]
    rw [valueStringMapper_found fs key value]

/-- The found flag of `valueStringMapper` is exactly `FieldList.hasKey`. -/
theorem valueStringMapper_found (fs : FieldList) (key value : Str) :
    (valueStringMapper fs key value).1 = fs.hasKey key := by
  cases fs with
  | nil => rfl
  | cons m v rest =>
    have ihr := valueStringMapper_found rest key value
    have ihv := valueStringMapperVal_found v key value
    cases htag : tagIgnored m.jsonTag with
    | true => simp [valueStringMapper, FieldList.hasKey, htag, ihr]
    | false =>
      cases hanon : m.anonymous with
      | false =>
        by_cases h4 : structFieldToKey m = key
        · cases v <;> simp [valueStringMapper, FieldList.hasKey, htag, hanon, h4]
        · simp [valueStringMapper, FieldList.hasKey, htag, hanon, h4, ihr]
      | true =>
        cases hfound : (valueStringMapperVal v key value).1 with
        | true =>
          have hv : v.hasKey key = true := ihv.symm.trans hfound
          simp [valueStringMapper, FieldList.hasKey, htag, hanon, hfound, hv]
        | false =>
          have hv : v.hasKey key = false := ihv.symm.trans hfound
          simp [valueStringMapper, FieldList.hasKey, htag, hanon, hfound, hv, ihr]

end

mutual

/-- `valueStringMapperVal` never changes which keys a value exposes. -/
theorem valueStringMapperVal_hasKey (v : FVal) (key value k2 : Str) :
    ((valueStringMapperVal v key value).2).hasKey k2 = v.hasKey k2 := by
  cases v with
  | prim s => rfl
  | arr s => rfl
  | obj fs =>
    simp only [valueStringMapperVal, FVal.hasKey]
    exact valueStringMapper_hasKey fs key value k2

/-- `valueStringMapper` never changes which keys a field list exposes. -/
theorem valueStringMapper_hasKey (fs : FieldList) (key value k2 : Str) :
    ((valueStringMapper fs key value).2).hasKey k2 = fs.hasKey k2 := by
  cases fs with
  | nil => rfl
  | cons m v rest =>
    have ihr := valueStringMapper_hasKey rest key value k2
    have ihv := valueStringMapperVal_hasKey v key value k2
    cases htag : tagIgnored m.jsonTag with
    | true => simp [valueStringMapper, FieldList.hasKey, htag, ihr]
    | false =>
      cases hanon : m.anonymous with
      | false =>
        by_cases h4 : structFieldToKey m = key
        · cases v <;> simp [valueStringMapper, FieldList.hasKey, FVal.hasKey, htag, hanon, h4]
        · simp [valueStringMapper, FieldList.hasKey, htag, hanon, h4, ihr]
      | true =>
        cases hfound : (valueStringMapperVal v key value).1 with
        | true => simp [valueStringMapper, FieldList.hasKey, htag, hanon, hfound, ihv]
        | false => simp [valueStringMapper, FieldList.hasKey, htag, hanon, hfound, ihr]

end

/-- If some path parameter's key has no corresponding field, the
path-parameter pass fails with `ErrPathParameterFieldMissing`. -/
theorem pathParameterPass_error : ∀ (ps : List (Str × Str)) (req : FieldList),
    (∃ kv ∈ ps, FieldList.hasKey req kv.1 = false) →
    pathParameterPass ps req = Except.error Err.ErrPathParameterFieldMissing
  | [], req, h => by simp at h
  | (key, value) :: rest, req, h => by
    simp only [pathParameterPass]
    by_cases hk : FieldList.hasKey req key = true
    · rw [if_pos (by rw [valueStringMapper_found]; exact hk)]
      apply pathParameterPass_error rest
      obtain ⟨kv, hmem, hmiss⟩ := h
      rcases List.mem_cons.mp hmem with hkv | hkv
      · subst hkv
        rw [hk] at hmiss
        cases hmiss
      · exact ⟨kv, hkv, by rw [valueStringMapper_hasKey]; exact hmiss⟩
    · rw [if_neg (by rw [valueStringMapper_found]; exact hk)]

/-- Claim C9 fails as stated: a route whose path template declares the
variable `id`, registered against a handler whose request type has only a
`name` field, is accepted by registration (`Handle` adds it to the route
table) and by startup (`Prepare` succeeds with no plugins), and the failure
surfaces only at request time: the mapper rejects the request with
`ErrPathParameterFieldMissing` without calling `Next`. -/
theorem claimC9_counterexample :
    (ServeMux.Handle ⟨[]⟩ "GET".toList "/api/{id}".toList).handlers =
      [⟨"GET".toList, ParsePathTemplate "/api/{id}".toList⟩] ∧
    Prepare [] = Except.ok () ∧
    (ParsePathTemplate "/api/{id}".toList).Match "/api/7".toList =
      some [("id".toList, "7".toList)] ∧
    RequestObjectMapperPre (fun _ r => Except.ok r)
      ⟨false, [Ty.ptrStruct (FieldList.cons ⟨"Name".toList, "name".toList, false⟩
          (FVal.prim []) FieldList.nil)], [none], [],
        ⟨"GET".toList, "/api/7".toList, [], [], none⟩,
        some [("id".toList, "7".toList)]⟩ =
      (⟨false, [Ty.ptrStruct (FieldList.cons ⟨"Name".toList, "name".toList, false⟩
          (FVal.prim []) FieldList.nil)], [none], [],
        ⟨"GET".toList, "/api/7".toList, [], [], none⟩,
        some [("id".toList, "7".toList)]⟩,
       some Err.ErrPathParameterFieldMissing, false) := by
  decide

/-- Claim C9, amended: a path variable with no corresponding field in the
request-object type is not checked at registration or startup — `Handle`
registers the route unconditionally and `Prepare` runs only the plugins —
and the failure surfaces per request: whenever the path-parameter map
carries a key with no corresponding field, the mapper stage fails the
request with `ErrPathParameterFieldMissing` and does not continue the
chain. -/
theorem claimC9_amended (mux : ServeMux) (method path : Str)
    (decode : Str → FieldList → Except Str FieldList) (b : Bubble)
    (argIdx : Nat) (zero : FieldList) (ps : List (Str × Str))
    (hfind : findUnresolvedStructSlot 0 b.Arguments b.ArgumentTypes = some (argIdx, zero))
    (hparams : b.pathParams = some ps)
    (hmiss : ∃ kv ∈ ps, FieldList.hasKey zero kv.1 = false) :
    (ServeMux.Handle mux method path).handlers.length =
      mux.handlers.length + (stringsSplit ',' (stringsToUpper method)).length ∧
    Prepare [] = Except.ok () ∧
    RequestObjectMapperPre decode b = (b, some Err.ErrPathParameterFieldMissing, false) := by
  refine ⟨by simp [ServeMux.Handle], rfl, ?_⟩
  simp only [RequestObjectMapperPre, hfind, hparams, pathParameterPass_error ps zero hmiss]

/-- Witness for the amended claim C9: a request carrying the path parameter
`id` against a request type with only a `name` field. -/
theorem claimC9_amended_witness :
    (findUnresolvedStructSlot 0 [none]
        [Ty.ptrStruct (FieldList.cons ⟨"Name".toList, "name".toList, false⟩
          (FVal.prim []) FieldList.nil)] =
      some (0, FieldList.cons ⟨"Name".toList, "name".toList, false⟩
        (FVal.prim []) FieldList.nil)) ∧
    (∃ kv ∈ [("id".toList, "7".toList)],
      FieldList.hasKey (FieldList.cons ⟨"Name".toList, "name".toList, false⟩
        (FVal.prim []) FieldList.nil) kv.1 = false) ∧
    ((ServeMux.Handle ⟨[]⟩ "GET".toList "/api/{id}".toList).handlers.length =
      (⟨[]⟩ : ServeMux).handlers.length +
        (stringsSplit ',' (stringsToUpper "GET".toList)).length ∧
     Prepare [] = Except.ok () ∧
     RequestObjectMapperPre (fun _ r => Except.ok r)
       ⟨false, [Ty.ptrStruct (FieldList.cons ⟨"Name".toList, "name".toList, false⟩
           (FVal.prim []) FieldList.nil)], [none], [],
         ⟨"GET".toList, "/api/7".toList, [], [], none⟩,
         some [("id".toList, "7".toList)]⟩ =
       (⟨false, [Ty.ptrStruct (FieldList.cons ⟨"Name".toList, "name".toList, false⟩
           (FVal.prim []) FieldList.nil)], [none], [],
         ⟨"GET".toList, "/api/7".toList, [], [], none⟩,
         some [("id".toList, "7".toList)]⟩,
        some Err.ErrPathParameterFieldMissing, false)) :=
  ⟨by decide, by decide,
   claimC9_amended ⟨[]⟩ "GET".toList "/api/{id}".toList (fun _ r => Except.ok r)
     ⟨false, [Ty.ptrStruct (FieldList.cons ⟨"Name".toList, "name".toList, false⟩
         (FVal.prim []) FieldList.nil)], [none], [],
       ⟨"GET".toList, "/api/7".toList, [], [], none⟩,
       some [("id".toList, "7".toList)]⟩
     0 (FieldList.cons ⟨"Name".toList, "name".toList, false⟩ (FVal.prim []) FieldList.nil)
     [("id".toList, "7".toList)] (by decide) rfl (by decide)⟩

/-! ## Claim about matching a template that contains a variable segment -/

/-- `stringsSplit` always produces at least one piece. -/
theorem stringsSplit_ne_nil (sep : Char) : ∀ s : Str, stringsSplit sep s ≠ []
  | [] => by simp [stringsSplit]
  | c :: cs => by
    simp only [stringsSplit]
    cases h : stringsSplit sep cs with
    | nil => simp
    | cons hd tl => by_cases hc : c = sep <;> simp [hc]

/-- Every character of a piece of `stringsSplit` occurs in the split string. -/
theorem mem_of_mem_stringsSplit (sep : Char) :
    ∀ (s piece : Str) (c : Char), piece ∈ stringsSplit sep s → c ∈ piece → c ∈ s
  | [], piece, c, hp, hc => by
    simp only [stringsSplit, List.mem_singleton] at hp
    subst hp
    cases hc
  | a :: cs, piece, c, hp, hc => by
    rcases h : stringsSplit sep cs with _ | ⟨hd, tl⟩
    · exact absurd h (stringsSplit_ne_nil sep cs)
    · simp only [stringsSplit, h] at hp
      by_cases hc2 : a = sep
      · rw [if_pos hc2] at hp
        rcases List.mem_cons.mp hp with h1 | h1
        · subst h1; cases hc
        · exact List.mem_cons_of_mem a
            (mem_of_mem_stringsSplit sep cs piece c (h ▸ h1) hc)
      · rw [if_neg hc2] at hp
        rcases List.mem_cons.mp hp with h1 | h1
        · subst h1
          rcases List.mem_cons.mp hc with h2 | h2
          · subst h2; exact List.mem_cons_self _ _
          · exact List.mem_cons_of_mem a
              (mem_of_mem_stringsSplit sep cs hd c (h ▸ List.mem_cons_self hd tl) h2)
        · exact List.mem_cons_of_mem a
            (mem_of_mem_stringsSplit sep cs piece c (h ▸ List.mem_cons_of_mem hd h1) hc)

/-- A variable segment starts with an opening brace. -/
theorem isVariableSegment_mem (part : Str) (h : isVariableSegment part = true) :
    '{' ∈ part := by
  match part with
  | [] => cases h
  | [a] => cases h
  | a :: b :: rest =>
    simp only [isVariableSegment, Bool.and_eq_true, beq_iff_eq] at h
    rw [h.1.1.1]
    exact List.mem_cons_self _ _

/-- `stringsIndex` returns an index inside the string. -/
theorem stringsIndex_lt (needle : Char) : ∀ (s : Str) (i : Nat),
    stringsIndex needle s = some i → i < s.length
  | [], i, h => by cases h
  | c :: cs, i, h => by
    by_cases hc : c = needle
    · simp only [stringsIndex, if_pos hc, Option.some_inj] at h
      subst h
      simp
    · simp only [stringsIndex, if_neg hc, Option.map_eq_some'] at h
      obtain ⟨j, hj, hji⟩ := h
      subst hji
      have := stringsIndex_lt needle cs j hj
      simp [Nat.succ_lt_succ_iff, this]

/-- A string containing the needle has an index for it. -/
theorem stringsIndex_isSome (needle : Char) : ∀ s : Str, needle ∈ s →
    (stringsIndex needle s).isSome = true
  | [], h => by cases h
  | c :: cs, h => by
    by_cases hc : c = needle
    · simp [stringsIndex, hc]
    · rcases List.mem_cons.mp h with h1 | h1
      · exact absurd h1.symm hc
      · have := stringsIndex_isSome needle cs h1
        simp only [stringsIndex, if_neg hc]
        cases hx : stringsIndex needle cs with
        | none => rw [hx] at this; cases this
        | some j => simp

/-- For a template containing a brace, the handle path is a strict prefix and
in particular differs from the raw template. -/
theorem httpHandlePath_ne (s : Str) (h : '{' ∈ s) :
    (ParsePathTemplate s).httpHandlePath ≠ s := by
  have hsome := stringsIndex_isSome '{' s h
  cases hx : stringsIndex '{' s with
  | none => rw [hx] at hsome; cases hsome
  | some i =>
    have hlt : i < s.length := stringsIndex_lt '{' s i hx
    simp only [ParsePathTemplate, hx]
    intro hh
    have : (s.take i).length = s.length := by rw [hh]
    rw [List.length_take] at this
    omega

/-- A parsed template with a variable segment contains a brace. -/
theorem parse_any_variable_mem (tmpl : Str)
    (hvar : (ParsePathTemplate tmpl).isVariables.any (fun x => x) = true) :
    '{' ∈ tmpl := by
  have : (stringsSplit '/' tmpl).any isVariableSegment = true := by
    simpa [ParsePathTemplate, List.any_map, Function.comp] using hvar
  obtain ⟨part, hmem, hpart⟩ := List.any_eq_true.mp this
  exact mem_of_mem_stringsSplit '/' tmpl part '{' hmem (isVariableSegment_mem part hpart)

/-- For a template with a variable segment, `Match` always takes the general,
segment-by-segment path (the prefix fast path requires a variable-free
template). -/
theorem Match_general (tmpl reqPath : Str)
    (hvar : (ParsePathTemplate tmpl).isVariables.any (fun x => x) = true) :
    (ParsePathTemplate tmpl).Match reqPath =
      (if (ParsePathTemplate tmpl).splittedPathTemplate.length <
            (stringsSplit '/' reqPath).length then
        matchLoop (ParsePathTemplate tmpl).splittedPathTemplate
          (ParsePathTemplate tmpl).isVariables
          ((stringsSplit '/' reqPath).take
            (ParsePathTemplate tmpl).splittedPathTemplate.length) []
      else if (ParsePathTemplate tmpl).splittedPathTemplate.length ≠
            (stringsSplit '/' reqPath).length then none
      else matchLoop (ParsePathTemplate tmpl).splittedPathTemplate
        (ParsePathTemplate tmpl).isVariables (stringsSplit '/' reqPath) []) := by
  have hne : ((ParsePathTemplate tmpl).PathTemplate ==
      (ParsePathTemplate tmpl).httpHandlePath) = false := by
    have h1 : (ParsePathTemplate tmpl).httpHandlePath ≠ tmpl :=
      httpHandlePath_ne tmpl (parse_any_variable_mem tmpl hvar)
    have h2 : (ParsePathTemplate tmpl).PathTemplate = tmpl := rfl
    rw [h2]
    exact beq_eq_false_iff_ne.mpr (fun hh => h1 hh.symm)
  simp only [PathTemplate.Match, hne, Bool.false_and, Bool.false_eq_true, if_false]

/-- Pushing a `mapInsert` past a head entry whose key differs. -/
theorem mapInsert_cons_ne (k : Str) (v : Str) (rest : List (Str × Str)) (key value : Str)
    (hk : (k == key) = false) :
    mapInsert ((k, v) :: rest) key value = (k, v) :: mapInsert rest key value := by
  have hkp : ¬ (k = key) := by simpa using hk
  simp only [mapInsert, List.any_cons, hk, Bool.false_or]
  by_cases ha : rest.any (fun p => p.1 == key) = true
  · simp [ha, hkp]
  · simp only [Bool.not_eq_true] at ha
    simp [ha, hkp]

/-- Looking up a key untouched by the overwrite map is unchanged. -/
theorem lookup_map_overwrite (key value k2 : Str) (h : (k2 == key) = false) :
    ∀ rs : List (Str × Str),
      (rs.map (fun p => if p.1 == key then (key, value) else p)).lookup k2 = rs.lookup k2
  | [] => rfl
  | (a, b) :: rs => by
    simp only [List.map_cons]
    by_cases hp : (a == key) = true
    · have ha : a = key := by simpa using hp
      rw [if_pos hp]
      simp only [List.lookup]
      rw [ha, h]
      exact lookup_map_overwrite key value k2 h rs
    · rw [if_neg hp]
      simp only [List.lookup]
      cases hz : (k2 == a) with
      | true => rfl
      | false => exact lookup_map_overwrite key value k2 h rs

/-- Go map assignment of a fresh key appends; of a present key overwrites in
place; in both cases looking up that key yields the new value. -/
theorem lookup_mapInsert_self : ∀ (m : List (Str × Str)) (key value : Str),
    (mapInsert m key value).lookup key = some value
  | [], key, value => by simp [mapInsert, List.lookup]
  | (k, v) :: rest, key, value => by
    by_cases hk : (k == key) = true
    · have hkey : k = key := by simpa using hk
      subst hkey
      have hany : ((k, v) :: rest).any (fun p => p.1 == k) = true := by
        simp [List.any_cons]
      simp [mapInsert, hany, List.lookup]
    · have hkf : (k == key) = false := by simpa using hk
      rw [mapInsert_cons_ne k v rest key value hkf]
      have hkk : (key == k) = false := by
        simp only [beq_eq_false_iff_ne]
        intro hh
        rw [hh] at hkf
        simp at hkf
      simp only [List.lookup, hkk]
      exact lookup_mapInsert_self rest key value

/-- Inserting one key leaves lookups of other keys unchanged. -/
theorem lookup_mapInsert_ne : ∀ (m : List (Str × Str)) (key value k2 : Str),
    k2 ≠ key → (mapInsert m key value).lookup k2 = m.lookup k2
  | [], key, value, k2, h => by
    have h2 : (k2 == key) = false := by simpa using h
    simp [mapInsert, List.lookup, h2]
  | (k, v) :: rest, key, value, k2, h => by
    have h2 : (k2 == key) = false := by simpa using h
    by_cases hk : (k == key) = true
    · have hkey : k = key := by simpa using hk
      subst hkey
      have hany : ((k, v) :: rest).any (fun p => p.1 == k) = true := by
        simp [List.any_cons]
      have hmi : mapInsert ((k, v) :: rest) k value =
          (k, value) :: rest.map (fun p => if p.1 == k then (k, value) else p) := by
        simp [mapInsert, hany]
      rw [hmi]
      simp only [List.lookup]
      rw [h2]
      exact lookup_map_overwrite k value k2 h2 rest
    · have hkf : (k == key) = false := by simpa using hk
      rw [mapInsert_cons_ne k v rest key value hkf]
      simp only [List.lookup]
      cases hpp : (k2 == k) with
      | true => rfl
      | false => exact lookup_mapInsert_ne rest key value k2 h

/-- The variable names of aligned template segments and variable flags, in
order of appearance. -/
def varNamesOf : List Str → List Bool → List Str
  | s :: ss, true :: vs => braceInner s :: varNamesOf ss vs
  | _ :: ss, false :: vs => varNamesOf ss vs
  | _, _ => []

/-- `varNamesOf` of a parsed template's segments and flags is exactly its
`PathParameters` list. -/
theorem varNamesOf_map : ∀ parts : List Str,
    varNamesOf parts (parts.map isVariableSegment) =
      (parts.filter isVariableSegment).map braceInner
  | [] => rfl
  | p :: parts => by
    cases hp : isVariableSegment p with
    | true => simp [varNamesOf, List.filter, hp, varNamesOf_map parts]
    | false => simp [varNamesOf, List.filter, hp, varNamesOf_map parts]

/-- The match loop inserts only variable names; lookups of other keys pass
through to the accumulator. -/
theorem matchLoop_lookup_notin : ∀ (ss : List Str) (vs : List Bool) (rs : List Str)
    (acc ps : List (Str × Str)), matchLoop ss vs rs acc = some ps →
    ∀ key, key ∉ varNamesOf ss vs → ps.lookup key = acc.lookup key
  | [], vs, rs, acc, ps, h, key, hk => by
    simp only [matchLoop, Option.some_inj] at h
    subst h
    rfl
  | s :: ss, [], rs, acc, ps, h, key, hk => by cases h
  | s :: ss, v :: vs, [], acc, ps, h, key, hk => by cases h
  | s :: ss, v :: vs, r :: rs, acc, ps, h, key, hk => by
    cases v with
    | true =>
      simp only [matchLoop, if_true] at h
      by_cases hr : r.isEmpty = true
      · rw [if_pos hr] at h; cases h
      · rw [if_neg hr] at h
        have hk1 : key ≠ braceInner s := fun hh => hk (by rw [hh, varNamesOf]; exact List.mem_cons_self _ _)
        have hk2 : key ∉ varNamesOf ss vs := fun hh => hk (by rw [varNamesOf]; exact List.mem_cons_of_mem _ hh)
        rw [matchLoop_lookup_notin ss vs rs _ ps h key hk2]
        exact lookup_mapInsert_ne acc (braceInner s) (unescapeValue r) key hk1
    | false =>
      simp only [matchLoop, Bool.false_eq_true, if_false] at h
      by_cases hs : (s == r) = true
      · rw [if_pos hs] at h
        have hk2 : key ∉ varNamesOf ss vs := by
          intro hh
          exact hk (by simpa [varNamesOf] using hh)
        exact matchLoop_lookup_notin ss vs rs acc ps h key hk2
      · rw [if_neg hs] at h; cases h

/-- In a successful match of a template with pairwise distinct variable
names, every variable position corresponds to a non-empty request segment
whose unescaped value is recorded under the variable's name. -/
theorem matchLoop_var_binding : ∀ (ss : List Str) (vs : List Bool) (rs : List Str)
    (acc ps : List (Str × Str)), matchLoop ss vs rs acc = some ps →
    (varNamesOf ss vs).Nodup →
    ∀ k, k < ss.length → vs.getD k false = true →
      rs.getD k [] ≠ [] ∧
      ps.lookup (braceInner (ss.getD k [])) = some (unescapeValue (rs.getD k []))
  | [], vs, rs, acc, ps, h, hnd, k, hk, hv => by simp at hk
  | s :: ss, [], rs, acc, ps, h, hnd, k, hk, hv => by cases h
  | s :: ss, v :: vs, [], acc, ps, h, hnd, k, hk, hv => by cases h
  | s :: ss, v :: vs, r :: rs, acc, ps, h, hnd, k, hk, hv => by
    cases v with
    | true =>
      simp only [matchLoop, if_true] at h
      by_cases hr : r.isEmpty = true
      · rw [if_pos hr] at h; cases h
      · rw [if_neg hr] at h
        have hnd' : (varNamesOf (s :: ss) (true :: vs)) =
            braceInner s :: varNamesOf ss vs := rfl
        rw [hnd'] at hnd
        have hnotin : braceInner s ∉ varNamesOf ss vs := (List.nodup_cons.mp hnd).1
        have hndtail : (varNamesOf ss vs).Nodup := (List.nodup_cons.mp hnd).2
        cases k with
        | zero =>
          refine ⟨by simpa [List.isEmpty_iff] using hr, ?_⟩
          simp only [List.getD_cons_zero]
          rw [matchLoop_lookup_notin ss vs rs _ ps h (braceInner s) hnotin]
          exact lookup_mapInsert_self acc (braceInner s) (unescapeValue r)
        | succ n =>
          have := matchLoop_var_binding ss vs rs _ ps h hndtail n
            (by simpa using hk) (by simpa using hv)
          simpa using this
    | false =>
      simp only [matchLoop, Bool.false_eq_true, if_false] at h
      by_cases hs : (s == r) = true
      · rw [if_pos hs] at h
        cases k with
        | zero => simp at hv
        | succ n =>
          have := matchLoop_var_binding ss vs rs acc ps h (by simpa [varNamesOf] using hnd) n
            (by simpa using hk) (by simpa using hv)
          simpa using this
      · rw [if_neg hs] at h; cases h

/-- The match loop fails whenever some variable position corresponds to an
empty request segment. -/
theorem matchLoop_empty_var : ∀ (ss : List Str) (vs : List Bool) (rs : List Str)
    (acc : List (Str × Str)) (k : Nat), k < ss.length → vs.getD k false = true →
    rs.getD k [] = [] → matchLoop ss vs rs acc = none
  | [], vs, rs, acc, k, hk, hv, hr => by simp at hk
  | s :: ss, [], rs, acc, k, hk, hv, hr => by
    cases rs <;> rfl
  | s :: ss, v :: vs, [], acc, k, hk, hv, hr => rfl
  | s :: ss, v :: vs, r :: rs, acc, k, hk, hv, hr => by
    cases k with
    | zero =>
      simp only [List.getD_cons_zero] at hv hr
      subst hv
      simp [matchLoop, hr]
    | succ n =>
      simp only [List.getD_cons_succ] at hv hr
      have hrec := matchLoop_empty_var ss vs rs
      cases v with
      | true =>
        simp only [matchLoop, if_true]
        by_cases hre : r.isEmpty = true
        · rw [if_pos hre]
        · rw [if_neg hre]
          exact hrec _ n (by simpa using hk) hv hr
      | false =>
        simp only [matchLoop, Bool.false_eq_true, if_false]
        by_cases hs : (s == r) = true
        · rw [if_pos hs]
          exact hrec acc n (by simpa using hk) hv hr
        · rw [if_neg hs]

/-- `List.getD` of a long-enough take is `List.getD` of the original list. -/
theorem list_getD_take {α : Type} : ∀ (l : List α) (n k : Nat) (d : α), k < n →
    (l.take n).getD k d = l.getD k d
  | [], n, k, d, h => by simp
  | a :: l, n + 1, 0, d, h => by simp
  | a :: l, n + 1, k + 1, d, h => by
    simp only [List.take, List.getD_cons_succ]
    exact list_getD_take l n k d (by omega)

/-- Claim C4: for a parsed template with at least one variable segment, (a) a
request that splits into fewer segments than the template never matches;
(b) a request with at least as many segments is matched on its first
`template-length` segments, the trailing ones being ignored; (c) in a
successful match, every variable position corresponds to a non-empty request
segment and (for pairwise distinct variable names) the bindings map records
its URL-unescaped value under the variable's name; (d) a request whose
segment at some variable position is empty never matches. -/
theorem claimC4 (tmpl reqPath : Str)
    (hvar : (ParsePathTemplate tmpl).isVariables.any (fun x => x) = true) :
    ((stringsSplit '/' reqPath).length <
        (ParsePathTemplate tmpl).splittedPathTemplate.length →
      (ParsePathTemplate tmpl).Match reqPath = none) ∧
    ((ParsePathTemplate tmpl).splittedPathTemplate.length ≤
        (stringsSplit '/' reqPath).length →
      (ParsePathTemplate tmpl).Match reqPath =
        matchLoop (ParsePathTemplate tmpl).splittedPathTemplate
          (ParsePathTemplate tmpl).isVariables
          ((stringsSplit '/' reqPath).take
            (ParsePathTemplate tmpl).splittedPathTemplate.length) []) ∧
    (∀ ps, (ParsePathTemplate tmpl).Match reqPath = some ps →
      ∀ k, k < (ParsePathTemplate tmpl).splittedPathTemplate.length →
        (ParsePathTemplate tmpl).isVariables.getD k false = true →
        (stringsSplit '/' reqPath).getD k [] ≠ [] ∧
        ((ParsePathTemplate tmpl).PathParameters.Nodup →
          ps.lookup (braceInner
              ((ParsePathTemplate tmpl).splittedPathTemplate.getD k [])) =
            some (unescapeValue ((stringsSplit '/' reqPath).getD k [])))) ∧
    (∀ k, k < (ParsePathTemplate tmpl).splittedPathTemplate.length →
      (ParsePathTemplate tmpl).isVariables.getD k false = true →
      (stringsSplit '/' reqPath).getD k [] = [] →
      (ParsePathTemplate tmpl).Match reqPath = none) := by
  have hgen := Match_general tmpl reqPath hvar
  have hclause1 : (stringsSplit '/' reqPath).length <
      (ParsePathTemplate tmpl).splittedPathTemplate.length →
      (ParsePathTemplate tmpl).Match reqPath = none := by
    intro hlt
    rw [hgen, if_neg (by omega), if_pos (by omega)]
  have hclause2 : (ParsePathTemplate tmpl).splittedPathTemplate.length ≤
      (stringsSplit '/' reqPath).length →
      (ParsePathTemplate tmpl).Match reqPath =
        matchLoop (ParsePathTemplate tmpl).splittedPathTemplate
          (ParsePathTemplate tmpl).isVariables
          ((stringsSplit '/' reqPath).take
            (ParsePathTemplate tmpl).splittedPathTemplate.length) [] := by
    intro hle
    rcases Nat.lt_or_ge (ParsePathTemplate tmpl).splittedPathTemplate.length
        (stringsSplit '/' reqPath).length with hlt | hge
    · rw [hgen, if_pos hlt]
    · have heq : (ParsePathTemplate tmpl).splittedPathTemplate.length =
          (stringsSplit '/' reqPath).length := by omega
      rw [hgen, if_neg (by omega), if_neg (by omega), heq, List.take_length]
  refine ⟨hclause1, hclause2, ?_, ?_⟩
  · intro ps hps k hk hv
    have hle : (ParsePathTemplate tmpl).splittedPathTemplate.length ≤
        (stringsSplit '/' reqPath).length := by
      by_contra hlt
      rw [hclause1 (by omega)] at hps
      cases hps
    rw [hclause2 hle] at hps
    have hnames : varNamesOf (ParsePathTemplate tmpl).splittedPathTemplate
        (ParsePathTemplate tmpl).isVariables = (ParsePathTemplate tmpl).PathParameters := by
      have h1 : (ParsePathTemplate tmpl).isVariables =
          (ParsePathTemplate tmpl).splittedPathTemplate.map isVariableSegment := rfl
      rw [h1, varNamesOf_map]
      rfl
    constructor
    · intro hempty
      have := matchLoop_empty_var (ParsePathTemplate tmpl).splittedPathTemplate
        (ParsePathTemplate tmpl).isVariables
        ((stringsSplit '/' reqPath).take
          (ParsePathTemplate tmpl).splittedPathTemplate.length) [] k hk hv
        (by rw [list_getD_take _ _ _ _ hk]; exact hempty)
      rw [this] at hps
      cases hps
    · intro hnd
      have hbind := matchLoop_var_binding (ParsePathTemplate tmpl).splittedPathTemplate
        (ParsePathTemplate tmpl).isVariables
        ((stringsSplit '/' reqPath).take
          (ParsePathTemplate tmpl).splittedPathTemplate.length) [] ps hps
        (by rw [hnames]; exact hnd) k hk hv
      rw [list_getD_take _ _ _ _ hk] at hbind
      exact hbind.2
  · intro k hk hv hempty
    rcases Nat.lt_or_ge (stringsSplit '/' reqPath).length
        (ParsePathTemplate tmpl).splittedPathTemplate.length with hlt | hge
    · exact hclause1 hlt
    · rw [hclause2 hge]
      exact matchLoop_empty_var _ _ _ [] k hk hv
        (by rw [list_getD_take _ _ _ _ hk]; exact hempty)

/-- Witness for claim C4 at the template `/u/{id}`: it has a variable
segment, and the too-short request `/u` does not match. -/
theorem claimC4_witness :
    ((ParsePathTemplate "/u/{id}".toList).isVariables.any (fun x => x) = true) ∧
    ((stringsSplit '/' "/u".toList).length <
        (ParsePathTemplate "/u/{id}".toList).splittedPathTemplate.length →
      (ParsePathTemplate "/u/{id}".toList).Match "/u".toList = none) :=
  ⟨by decide, (claimC4 "/u/{id}".toList "/u".toList (by decide)).1⟩

/-! ## Claim about registration-order tie-breaking -/

/-- Full case analysis of one selection-loop step: either the entry is
skipped — because its method rate is zero or below the best, its path rate
is zero or below the best, or both rates exactly tie the best — or it is
selected, which requires both rates to be non-zero, at least the current
best, and not both equal to it. -/
theorem selStep_spec (r : Request) (i : Nat) (rd : RouteDefinition) (s : SelState) :
    (selStep r i rd s = s ∧
      (methodMatchRate r rd = 0 ∨ methodMatchRate r rd < s.bestMethodMatchRate ∨
       pathMatchRate r rd = 0 ∨ pathMatchRate r rd < s.bestPathMatchRate ∨
       (s.bestMethodMatchRate = methodMatchRate r rd ∧
        s.bestPathMatchRate = pathMatchRate r rd))) ∨
    (selStep r i rd s = ⟨some i, methodMatchRate r rd, pathMatchRate r rd⟩ ∧
      s.bestMethodMatchRate ≤ methodMatchRate r rd ∧
      s.bestPathMatchRate ≤ pathMatchRate r rd ∧
      methodMatchRate r rd ≠ 0 ∧ pathMatchRate r rd ≠ 0 ∧
      ¬ (s.bestMethodMatchRate = methodMatchRate r rd ∧
         s.bestPathMatchRate = pathMatchRate r rd)) := by
  simp only [selStep]
  by_cases h1 : (methodMatchRate r rd == noMethodMatch) = true
  · rw [if_pos h1]
    exact Or.inl ⟨rfl, Or.inl (by simpa [noMethodMatch] using h1)⟩
  · rw [if_neg h1]
    by_cases h2 : methodMatchRate r rd < s.bestMethodMatchRate
    · rw [if_pos h2]
      exact Or.inl ⟨rfl, Or.inr (Or.inl h2)⟩
    · rw [if_neg h2]
      by_cases h3 : (pathMatchRate r rd == noPathMatch) = true
      · rw [if_pos h3]
        exact Or.inl ⟨rfl, Or.inr (Or.inr (Or.inl (by simpa [noPathMatch] using h3)))⟩
      · rw [if_neg h3]
        by_cases h4 : pathMatchRate r rd < s.bestPathMatchRate
        · rw [if_pos h4]
          exact Or.inl ⟨rfl, Or.inr (Or.inr (Or.inr (Or.inl h4)))⟩
        · rw [if_neg h4]
          by_cases h5 : (s.bestMethodMatchRate == methodMatchRate r rd &&
              s.bestPathMatchRate == pathMatchRate r rd) = true
          · rw [if_pos h5]
            refine Or.inl ⟨rfl, Or.inr (Or.inr (Or.inr (Or.inr ?_)))⟩
            simpa using h5
          · rw [if_neg h5]
            refine Or.inr ⟨rfl, by omega, by omega, ?_, ?_, ?_⟩
            · simpa [noMethodMatch] using h1
            · simpa [noPathMatch] using h3
            · intro hh
              exact h5 (by simp [hh.1, hh.2])

/-- The state against which a rate pair `(m, p)` can no longer win: zero in
either tier, strictly below the best in either tier, or dominated in both. -/
def shielded (m p : Nat) (s : SelState) : Prop :=
  m = 0 ∨ p = 0 ∨ m < s.bestMethodMatchRate ∨ p < s.bestPathMatchRate ∨
    (m ≤ s.bestMethodMatchRate ∧ p ≤ s.bestPathMatchRate)

/-- A shield survives any growth of the best rates. -/
theorem shielded_mono (m p : Nat) (s s2 : SelState)
    (hm : s.bestMethodMatchRate ≤ s2.bestMethodMatchRate)
    (hp : s.bestPathMatchRate ≤ s2.bestPathMatchRate)
    (h : shielded m p s) : shielded m p s2 := by
  rcases h with h | h | h | h | ⟨h1, h2⟩
  · exact Or.inl h
  · exact Or.inr (Or.inl h)
  · exact Or.inr (Or.inr (Or.inl (by omega)))
  · exact Or.inr (Or.inr (Or.inr (Or.inl (by omega))))
  · exact Or.inr (Or.inr (Or.inr (Or.inr ⟨by omega, by omega⟩)))

/-- One step never decreases either best rate. -/
theorem selStep_mono (r : Request) (i : Nat) (rd : RouteDefinition) (s : SelState) :
    s.bestMethodMatchRate ≤ (selStep r i rd s).bestMethodMatchRate ∧
    s.bestPathMatchRate ≤ (selStep r i rd s).bestPathMatchRate := by
  rcases selStep_spec r i rd s with ⟨he, -⟩ | ⟨he, h1, h2, -⟩
  · rw [he]; exact ⟨Nat.le_refl _, Nat.le_refl _⟩
  · rw [he]; exact ⟨h1, h2⟩

/-- A step on an entry whose rates are shielded leaves the state unchanged. -/
theorem selStep_shielded (r : Request) (m p i : Nat) (rd : RouteDefinition) (s : SelState)
    (hm : methodMatchRate r rd = m) (hp : pathMatchRate r rd = p)
    (h : shielded m p s) : selStep r i rd s = s := by
  rcases selStep_spec r i rd s with ⟨he, -⟩ | ⟨he, h1, h2, h3, h4, h5⟩
  · exact he
  · exfalso
    subst hm; subst hp
    rcases h with h | h | h | h | ⟨ha, hb⟩
    · exact h3 h
    · exact h4 h
    · omega
    · omega
    · exact h5 ⟨by omega, by omega⟩

/-- After a step on an entry with rates `(m, p)`, the state is shielded
against `(m, p)`. -/
theorem selStep_shields (r : Request) (m p i : Nat) (rd : RouteDefinition) (s : SelState)
    (hm : methodMatchRate r rd = m) (hp : pathMatchRate r rd = p) :
    shielded m p (selStep r i rd s) := by
  rcases selStep_spec r i rd s with ⟨he, hc⟩ | ⟨he, h1, h2, -⟩
  · rw [he]
    subst hm; subst hp
    rcases hc with h | h | h | h | ⟨ha, hb⟩
    · exact Or.inl h
    · exact Or.inr (Or.inr (Or.inl h))
    · exact Or.inr (Or.inl h)
    · exact Or.inr (Or.inr (Or.inr (Or.inl h)))
    · exact Or.inr (Or.inr (Or.inr (Or.inr ⟨by omega, by omega⟩)))
  · rw [he]
    subst hm; subst hp
    exact Or.inr (Or.inr (Or.inr (Or.inr ⟨Nat.le_refl _, Nat.le_refl _⟩)))

/-- If the state is shielded against the rates of the entry registered at
absolute index `j` and does not currently hold `j`, running the rest of the
loop never returns `j`. -/
theorem selLoop_avoid (r : Request) (m p j : Nat) :
    ∀ (l : List RouteDefinition) (i0 : Nat) (s : SelState),
      shielded m p s → s.bestRoute ≠ some j →
      (∀ k, k < l.length → i0 + k = j →
        methodMatchRate r (l.getD k ⟨[], ParsePathTemplate []⟩) = m ∧
        pathMatchRate r (l.getD k ⟨[], ParsePathTemplate []⟩) = p) →
      (selLoop r i0 l s).bestRoute ≠ some j
  | [], _, _, _, hne, _ => hne
  | rd :: rest, i0, s, hsh, hne, hrt => by
    simp only [selLoop]
    have hmono := selStep_mono r i0 rd s
    have hsh2 : shielded m p (selStep r i0 rd s) :=
      shielded_mono m p s _ hmono.1 hmono.2 hsh
    have hne2 : (selStep r i0 rd s).bestRoute ≠ some j := by
      by_cases hij : i0 = j
      · have hr0 := hrt 0 (by simp) (by omega)
        simp only [List.getD_cons_zero] at hr0
        rw [selStep_shielded r m p i0 rd s hr0.1 hr0.2 hsh]
        exact hne
      · rcases selStep_spec r i0 rd s with ⟨he, -⟩ | ⟨he, -⟩
        · rw [he]; exact hne
        · rw [he]
          intro hh
          exact hij (by simpa using hh)
    refine selLoop_avoid r m p j rest (i0 + 1) _ hsh2 hne2 ?_
    intro k hk hkj
    have := hrt (k + 1) (by simpa using hk) (by omega)
    simpa using this

/-- The selected index always lies below the end of the processed range. -/
theorem selLoop_route_lt (r : Request) :
    ∀ (l : List RouteDefinition) (i0 : Nat) (s : SelState),
      (∀ k, s.bestRoute = some k → k < i0) →
      ∀ k, (selLoop r i0 l s).bestRoute = some k → k < i0 + l.length
  | [], i0, s, hs, k, hk => by
    have := hs k hk
    simpa using this
  | rd :: rest, i0, s, hs, k, hk => by
    simp only [selLoop] at hk
    have hs2 : ∀ k2, (selStep r i0 rd s).bestRoute = some k2 → k2 < i0 + 1 := by
      intro k2 hk2
      rcases selStep_spec r i0 rd s with ⟨he, -⟩ | ⟨he, -⟩
      · rw [he] at hk2
        have := hs k2 hk2
        omega
      · rw [he] at hk2
        simp only [Option.some_inj] at hk2
        omega
    have := selLoop_route_lt r rest (i0 + 1) _ hs2 k hk
    simp only [List.length_cons]
    omega

/-- The loop over a concatenation processes the first part, then the second
with the index advanced. -/
theorem selLoop_append (r : Request) :
    ∀ (l1 l2 : List RouteDefinition) (i0 : Nat) (s : SelState),
      selLoop r i0 (l1 ++ l2) s = selLoop r (i0 + l1.length) l2 (selLoop r i0 l1 s)
  | [], l2, i0, s => by simp [selLoop]
  | rd :: l1, l2, i0, s => by
    simp only [List.cons_append, selLoop, List.append_eq]
    rw [selLoop_append r l1 l2 (i0 + 1) _]
    have : i0 + 1 + l1.length = i0 + (l1.length + 1) := by omega
    rw [this]
    rfl

/-- Taking one element more splits off the element at that position. -/
theorem take_succ_getD {α : Type} : ∀ (l : List α) (i : Nat) (d : α), i < l.length →
    l.take (i + 1) = l.take i ++ [l.getD i d]
  | [], i, d, h => by simp at h
  | a :: l, 0, d, h => by simp
  | a :: l, i + 1, d, h => by
    simp only [List.take_succ_cons, List.getD_cons_succ]
    rw [take_succ_getD l i d (by simpa using h), List.cons_append]

/-- `getD` into a drop is `getD` at the shifted index. -/
theorem getD_drop {α : Type} : ∀ (l : List α) (n k : Nat) (d : α),
    (l.drop n).getD k d = l.getD (n + k) d
  | l, 0, k, d => by simp
  | [], n + 1, k, d => by simp
  | a :: l, n + 1, k, d => by
    simp only [List.drop_succ_cons]
    rw [getD_drop l n k d]
    have : n + 1 + k = (n + k) + 1 := by omega
    rw [this, List.getD_cons_succ]

/-- Claim C1: if two registered entries tie on both the method tier and the
path tier for a request, the router never returns the later-registered one —
the loop never replaces the current best with a later entry whose method
tier and path tier both exactly equal the current best, so the earlier entry
(or a better one) wins. -/
theorem claimC1 (r : Request) (handlers : List RouteDefinition) (i j : Nat)
    (hij : i < j) (hj : j < handlers.length)
    (hm : methodMatchRate r (handlers.getD i ⟨[], ParsePathTemplate []⟩) =
          methodMatchRate r (handlers.getD j ⟨[], ParsePathTemplate []⟩))
    (hp : pathMatchRate r (handlers.getD i ⟨[], ParsePathTemplate []⟩) =
          pathMatchRate r (handlers.getD j ⟨[], ParsePathTemplate []⟩)) :
    pickupBestRouteDefinitionIdx r handlers ≠ some j := by
  have hi : i < handlers.length := Nat.lt_trans hij hj
  have hleni : (handlers.take i).length = i := by
    rw [List.length_take]
    omega
  have hlen1 : (handlers.take (i + 1)).length = i + 1 := by
    rw [List.length_take]
    omega
  have hstep : selLoop r 0 (handlers.take (i + 1)) ⟨none, noMethodMatch, noPathMatch⟩ =
      selStep r i (handlers.getD i ⟨[], ParsePathTemplate []⟩)
        (selLoop r 0 (handlers.take i) ⟨none, noMethodMatch, noPathMatch⟩) := by
    rw [take_succ_getD handlers i ⟨[], ParsePathTemplate []⟩ hi,
      selLoop_append r (handlers.take i) _ 0 _]
    simp [selLoop, hleni]
  have hshield : shielded (methodMatchRate r (handlers.getD j ⟨[], ParsePathTemplate []⟩))
      (pathMatchRate r (handlers.getD j ⟨[], ParsePathTemplate []⟩))
      (selLoop r 0 (handlers.take (i + 1)) ⟨none, noMethodMatch, noPathMatch⟩) := by
    rw [hstep]
    exact selStep_shields r _ _ i _ _ hm hp
  have hne2 : (selLoop r 0 (handlers.take (i + 1))
      ⟨none, noMethodMatch, noPathMatch⟩).bestRoute ≠ some j := by
    intro hh
    have hbound := selLoop_route_lt r (handlers.take (i + 1)) 0
      ⟨none, noMethodMatch, noPathMatch⟩ (fun k hk => by cases hk) j hh
    rw [hlen1] at hbound
    omega
  have hdropcond : ∀ k, k < (handlers.drop (i + 1)).length → (i + 1) + k = j →
      methodMatchRate r ((handlers.drop (i + 1)).getD k ⟨[], ParsePathTemplate []⟩) =
        methodMatchRate r (handlers.getD j ⟨[], ParsePathTemplate []⟩) ∧
      pathMatchRate r ((handlers.drop (i + 1)).getD k ⟨[], ParsePathTemplate []⟩) =
        pathMatchRate r (handlers.getD j ⟨[], ParsePathTemplate []⟩) := by
    intro k hk hkj
    rw [getD_drop handlers (i + 1) k ⟨[], ParsePathTemplate []⟩, hkj]
    exact ⟨rfl, rfl⟩
  have hfinal := selLoop_avoid r
    (methodMatchRate r (handlers.getD j ⟨[], ParsePathTemplate []⟩))
    (pathMatchRate r (handlers.getD j ⟨[], ParsePathTemplate []⟩)) j
    (handlers.drop (i + 1)) (i + 1) _ hshield hne2 hdropcond
  have hdecomp : pickupBestRouteDefinitionIdx r handlers =
      (selLoop r (i + 1) (handlers.drop (i + 1))
        (selLoop r 0 (handlers.take (i + 1)) ⟨none, noMethodMatch, noPathMatch⟩)).bestRoute := by
    unfold pickupBestRouteDefinitionIdx
    conv_lhs => rw [(List.take_append_drop (i + 1) handlers).symm]
    rw [selLoop_append r (handlers.take (i + 1)) (handlers.drop (i + 1)) 0 _, hlen1,
      Nat.zero_add]
  rw [hdecomp]
  exact hfinal

/-- Witness for claim C1: two identical GET `/x` entries; the request GET
`/x` ties them on both tiers, and the router does not return index 1. -/
theorem claimC1_witness :
    (0 < 1 ∧ 1 < 2) ∧
    (methodMatchRate ⟨"GET".toList, "/x".toList, [], [], none⟩
        ([⟨"GET".toList, ParsePathTemplate "/x".toList⟩,
          ⟨"GET".toList, ParsePathTemplate "/x".toList⟩].getD 0 ⟨[], ParsePathTemplate []⟩) =
      methodMatchRate ⟨"GET".toList, "/x".toList, [], [], none⟩
        ([⟨"GET".toList, ParsePathTemplate "/x".toList⟩,
          ⟨"GET".toList, ParsePathTemplate "/x".toList⟩].getD 1 ⟨[], ParsePathTemplate []⟩)) ∧
    pickupBestRouteDefinitionIdx ⟨"GET".toList, "/x".toList, [], [], none⟩
      [⟨"GET".toList, ParsePathTemplate "/x".toList⟩,
       ⟨"GET".toList, ParsePathTemplate "/x".toList⟩] ≠ some 1 :=
  ⟨⟨Nat.zero_lt_one, Nat.one_lt_two⟩, by decide,
   claimC1 ⟨"GET".toList, "/x".toList, [], [], none⟩
     [⟨"GET".toList, ParsePathTemplate "/x".toList⟩,
      ⟨"GET".toList, ParsePathTemplate "/x".toList⟩] 0 1
     Nat.zero_lt_one Nat.one_lt_two (by decide) (by decide)⟩

end Ucon
